import Mathlib

/-!
# Height controller of the motorised desk (`src/main.cpp`)

A shallow embedding of the control logic of `main.cpp`: the global variables become the
fields of `Controller`, every function that reads or writes them becomes a function on
`Controller`, and the values the hardware supplies (`digitalRead`, `millis`, the path
argument of a request) become arguments.  The HTTP replies and the serial log are not part
of the state.

Machine arithmetic:
* `int` globals are `Int`; the two counters that the program steps with `+= 1` and
  `-= 1` without a guard wrap round at 32 bits (`wrap_int32`), as two's complement
  arithmetic does on the target;
* `unsigned long` time stamps are `Nat` below `2 ^ 32`; their subtraction wraps (`usub32`);
* a comparison of an `int` with an `unsigned int` constant converts the `int` to
  `unsigned int` first (`toUnsigned`);
* the `double` arithmetic of `get_current_height` is IEEE-754 binary64 with
  round-to-nearest-even, modelled exactly on dyadic rationals (`Binary`); the exponent
  range is not bounded, which no value computed from a 32-bit position can notice.
-/

set_option maxRecDepth 100000

/-! ## Binary floating point -/

/-- A finite binary floating-point value, standing for `m * 2 ^ e`. -/
structure Binary where
  m : Int
  e : Int
deriving DecidableEq, Repr

/-- Number of binary digits of `n`, by halving; the first argument bounds the number of
halvings and `bitLength` passes `n` itself, which is always enough. -/
def bitLengthAux : Nat → Nat → Nat
  | 0, _ => 0
  | fuel + 1, n => if n = 0 then 0 else bitLengthAux fuel (n / 2) + 1

/-- Number of binary digits of `n` (`0` for `0`). -/
def bitLength (n : Nat) : Nat := bitLengthAux n n

/-- The integer nearest to `n / d` for `d > 0`; a tie goes to the even neighbour. -/
def roundNearestEven (n : Int) (d : Nat) : Int :=
  let f := n / (d : Int)
  let r := n % (d : Int)
  if 2 * r < d then f else if (d : Int) < 2 * r then f + 1 else if f % 2 = 0 then f else f + 1

/-- The integer `k` with `2 ^ k ≤ n / d < 2 ^ (k + 1)`, for positive `n` and `d`. -/
def ilog2Frac (n d : Nat) : Int :=
  let k : Int := (bitLength n : Int) - (bitLength d : Int)
  if d * 2 ^ k.toNat ≤ n * 2 ^ (-k).toNat then k else k - 1

/-- Round the rational `n / d` (`d > 0`) to the nearest binary floating-point value with a
significand of `prec` bits, ties to even. -/
def roundBinary (prec : Nat) (n : Int) (d : Nat) : Binary :=
  if n = 0 then ⟨0, 0⟩ else
  let e := ilog2Frac n.natAbs d - ((prec : Int) - 1)
  ⟨roundNearestEven (n * 2 ^ (-e).toNat) (d * 2 ^ e.toNat), e⟩

namespace Binary

/-- Numerator of the value as a fraction with denominator `den`. -/
def num (a : Binary) : Int := a.m * 2 ^ a.e.toNat

/-- Denominator of the value, a power of two. -/
def den (a : Binary) : Nat := 2 ^ (-a.e).toNat

/-- Conversion of an integer to `double`. -/
def ofInt (p : Int) : Binary := roundBinary 53 p 1

/-- Conversion of a `double` to `float` (24-bit significand). -/
def toFloat (a : Binary) : Binary := roundBinary 24 a.num a.den

/-- The `double` quotient `a / b`, for `b ≠ 0`. -/
def div (a b : Binary) : Binary :=
  roundBinary 53 (a.num * b.den * b.num.sign) (a.den * b.num.natAbs)

/-- The `double` sum `a + b`. -/
def add (a b : Binary) : Binary :=
  roundBinary 53 (a.num * b.den + b.num * a.den) (a.den * b.den)

/-- Conversion of a `double` to `int`: the fractional part is discarded (truncation
toward zero). -/
def toInt (a : Binary) : Int := Int.tdiv a.num a.den

end Binary

/-! ## Constants and state -/

/-- `#define MOTOR_SPEED 255`. -/
def MOTOR_SPEED : Int := 255

/-- `const unsigned int MAX_HEIGHT = 120`. -/
def MAX_HEIGHT : Nat := 120

/-- `const unsigned int MIN_HEIGHT = 70`. -/
def MIN_HEIGHT : Nat := 70

/-- `const float ROTATION_TO_HEIGHT_RATIO = 50 / 23.0`: the `double` quotient of `50` by
`23.0`, stored as a `float`. -/
def ROTATION_TO_HEIGHT_RATIO : Binary :=
  (Binary.div (Binary.ofInt 50) ⟨23, 0⟩).toFloat

/-- `HIGH` of the Arduino core. -/
def HIGH : Int := 1

/-- `LOW` of the Arduino core. -/
def LOW : Int := 0

/-- Conversion of an `int` to `unsigned int` (32 bits). -/
def toUnsigned (x : Int) : Nat := (x % 2 ^ 32).toNat

/-- A value of type `int` (32 bits). -/
def is_int32 (x : Int) : Prop := -(2 ^ 31) ≤ x ∧ x < 2 ^ 31

/-- The `int` that holds the exact result `x` of a `+= 1` or `-= 1`: `x` itself when it is
in the 32-bit range, and otherwise `x` wrapped round (two's complement), so that
`2147483647 + 1` gives `-2147483648`. -/
def wrap_int32 (x : Int) : Int := (x + 2 ^ 31) % 2 ^ 32 - 2 ^ 31

/-- Subtraction of two `unsigned long` values (32 bits on the ESP8266). -/
def usub32 (a b : Nat) : Nat := (a + 2 ^ 32 - b % 2 ^ 32) % 2 ^ 32

/-- States of the system (`state_t`). -/
inductive state_t where
  | CALIBRATING
  | UP
  | DOWN
  | HOLD
deriving DecidableEq, Repr

open state_t

/-- The global variables of `main.cpp`, and the speed last passed to `motor.setSpeed`. -/
structure Controller where
  g_system_state : state_t
  g_opto_state : Int
  g_last_on_hold_time : Nat
  g_last_opto_change_time : Nat
  g_opto_position : Int
  g_custom_height : Int
  g_endstop_value_trig_times : Int
  motor_speed : Int
deriving DecidableEq, Repr

/-- The globals as initialised at program start, after `setup` has run at time `now`
(`motor.setSpeed(0)` and `init_timestamps`). -/
def Controller.initial (now : Nat) : Controller :=
  { g_system_state := CALIBRATING
    g_opto_state := -1
    g_last_on_hold_time := now
    g_last_opto_change_time := now
    g_opto_position := 0
    g_custom_height := -1
    g_endstop_value_trig_times := 0
    motor_speed := 0 }

/-! ## The functions of `main.cpp` -/

/-- The expression of `get_current_height` at position `p`:
`(int) g_opto_position / 4.0 / ROTATION_TO_HEIGHT_RATIO + MIN_HEIGHT`, where the cast
applies to `g_opto_position` alone, the arithmetic is `double`, and the `return` converts
the sum to `int`. -/
def height_of_position (p : Int) : Int :=
  (Binary.add
    (Binary.div (Binary.div (Binary.ofInt p) ⟨4, 0⟩) ROTATION_TO_HEIGHT_RATIO)
    (Binary.ofInt MIN_HEIGHT)).toInt

/-- `get_current_height`. -/
def get_current_height (s : Controller) : Int :=
  height_of_position s.g_opto_position

/-- `handle_motor_requests`, with `action` the path argument of the request. -/
def handle_motor_requests (action : String) (s : Controller) : Controller :=
  let s1 :=
    if action = "up" then { s with g_system_state := UP }
    else if action = "stop" then { s with g_system_state := HOLD }
    else if action = "down" then { s with g_system_state := DOWN }
    else s
  { s1 with g_custom_height := -1 }

/-- `handle_height_requests`, with `height` the `int` that `atoi` made of the path
argument. -/
def handle_height_requests (height : Int) (s : Controller) : Controller :=
  if toUnsigned height ≥ MIN_HEIGHT ∧ toUnsigned height ≤ MAX_HEIGHT then
    let current_height := get_current_height s
    if current_height < height then
      { s with g_custom_height := height, g_system_state := UP }
    else if current_height > height then
      { s with g_custom_height := height, g_system_state := DOWN }
    else s
  else s

/-- `stop_table`. -/
def stop_table (s : Controller) : Controller :=
  { s with motor_speed := 0, g_custom_height := -1, g_system_state := HOLD }

/-- `raise_table`. -/
def raise_table (s : Controller) : Controller :=
  if toUnsigned (get_current_height s) < MAX_HEIGHT then
    { s with motor_speed := MOTOR_SPEED }
  else stop_table s

/-- `lower_table`. -/
def lower_table (s : Controller) : Controller :=
  if toUnsigned (get_current_height s) ≥ MIN_HEIGHT then
    { s with motor_speed := -MOTOR_SPEED }
  else stop_table s

/-- `custom_height_reached`. -/
def custom_height_reached (s : Controller) : Bool :=
  s.g_custom_height ≠ -1 && s.g_custom_height = get_current_height s

/-- `handle_output`. -/
def handle_output (s : Controller) : Controller :=
  let s1 := if custom_height_reached s then { s with g_system_state := HOLD } else s
  match s1.g_system_state with
  | UP => raise_table s1
  | DOWN => lower_table s1
  | HOLD => stop_table s1
  | CALIBRATING => s1

/-- `stop_motor_reset_position`. -/
def stop_motor_reset_position (s : Controller) : Controller :=
  { stop_table s with g_opto_position := 0 }

/-- The debounce test of `handle_endstop`:
`endstop_value == HIGH && g_endstop_value_trig_times > 10`, on the counter as already
updated for this reading. -/
def endstop_confirmed (endstop_value : Int) (s : Controller) : Bool :=
  endstop_value = HIGH && s.g_endstop_value_trig_times > 10

/-- The first statement of `handle_endstop`: the counter goes up by one on a `HIGH` reading
(`g_endstop_value_trig_times += 1` on an `int`) and back to 0 on any other. -/
def count_endstop_reading (endstop_value : Int) (s : Controller) : Controller :=
  if endstop_value = HIGH then
    { s with g_endstop_value_trig_times := wrap_int32 (s.g_endstop_value_trig_times + 1) }
  else { s with g_endstop_value_trig_times := 0 }

/-- `handle_endstop`, with `endstop_value` the result of `digitalRead(TABLE_END_STOP)`. -/
def handle_endstop (endstop_value : Int) (s : Controller) : Controller :=
  let s1 := count_endstop_reading endstop_value s
  let s2 :=
    if s1.g_system_state = CALIBRATING then
      if endstop_value ≠ HIGH then { s1 with motor_speed := -MOTOR_SPEED } else s1
    else s1
  if endstop_confirmed endstop_value s2 ∧
      (s2.g_system_state = DOWN ∨ s2.g_system_state = CALIBRATING) then
    stop_motor_reset_position s2
  else s2

/-- `track_position`, with `cur_opto_state` the result of `digitalRead(OPTO_SENSOR)` and
`now` the result of `millis()`; `g_opto_position += 1` and `-= 1` act on an `int`. -/
def track_position (cur_opto_state : Int) (now : Nat) (s : Controller) : Controller :=
  if s.g_opto_state ≠ cur_opto_state then
    let s1 := { s with g_opto_state := cur_opto_state, g_last_opto_change_time := now }
    if s1.g_system_state = UP then
      { s1 with g_opto_position := wrap_int32 (s1.g_opto_position + 1) }
    else
      { s1 with g_opto_position := wrap_int32 (s1.g_opto_position - 1) }
  else s

/-- `opto_sensor_not_changing_when_motor_on`, with `now` the result of `millis()`. -/
def opto_sensor_not_changing_when_motor_on (now : Nat) (s : Controller) : Bool :=
  usub32 now s.g_last_opto_change_time > 500 && usub32 now s.g_last_on_hold_time > 500

/-- `motor_stuck_protection`, with `now` the result of `millis()` in the branch taken. -/
def motor_stuck_protection (now : Nat) (s : Controller) : Controller :=
  if s.g_system_state = HOLD then
    { s with g_last_on_hold_time := now }
  else if opto_sensor_not_changing_when_motor_on now s then
    { s with g_system_state := HOLD }
  else s

/-! ## Runs of one function over a sequence of inputs -/

/-- `handle_endstop` called once per cycle on the readings `rs`, in order. -/
def run_endstop (rs : List Int) (s : Controller) : Controller :=
  rs.foldl (fun t r => handle_endstop r t) s

/-- Whether the cycle that reads `endstop_value` in `s` confirms the end-stop: the debounce
test of `handle_endstop` on the counter as updated for this reading. -/
def confirmed_in_cycle (endstop_value : Int) (s : Controller) : Bool :=
  endstop_confirmed endstop_value (count_endstop_reading endstop_value s)

/-- For each cycle of `handle_endstop` on the readings `rs`, whether it confirmed the
end-stop. -/
def endstop_trace : List Int → Controller → List Bool
  | [], _ => []
  | r :: rs, s => confirmed_in_cycle r s :: endstop_trace rs (handle_endstop r s)

/-- Length of the run of consecutive `HIGH` readings that ends the sequence `rs`. -/
def trailing_high (rs : List Int) : Nat :=
  (rs.reverse.takeWhile (fun r => decide (r = HIGH))).length

/-- `track_position` called once per cycle on the readings and clock values `rs`. -/
def run_track (rs : List (Int × Nat)) (s : Controller) : Controller :=
  rs.foldl (fun t r => track_position r.1 r.2 t) s

/-- `output_then_track`: one cycle that only runs `handle_output` and then
`track_position` on the reading and clock value `r`: no request, no end-stop
confirmation and no stall. -/
def output_then_track (r : Int × Nat) (s : Controller) : Controller :=
  track_position r.1 r.2 (handle_output s)

/-- Cycles of `handle_output` followed by `track_position`, one per element of `rs`. -/
def run_output_track (rs : List (Int × Nat)) (s : Controller) : Controller :=
  rs.foldl (fun t r => output_then_track r t) s

/-! ## The main loop -/

/-- A request that `server.handleClient()` dispatches to a handler that writes the
globals: `/motor/<action>` or `/height/<height>`, with `h` the `int` that `atoi` made of
the path argument. The index page and the height query write nothing and are left out. -/
inductive Request where
  | motor (action : String)
  | height (h : Int)
deriving DecidableEq, Repr

/-- The handler that `register_server_routes` registers for the request. -/
def Request.handle (req : Request) (s : Controller) : Controller :=
  match req with
  | .motor action => handle_motor_requests action s
  | .height h => handle_height_requests h s

/-- `server.handleClient()`: the handlers of the requests served by this call, in order
(none when no client is waiting). -/
def handle_client (reqs : List Request) (s : Controller) : Controller :=
  reqs.foldl (fun t req => req.handle t) s

/-- What one pass of `loop` reads from outside: the end-stop pin, the requests served by
`server.handleClient()`, the sensor pin, and `millis()` in `track_position` and in
`motor_stuck_protection`. -/
structure CycleInput where
  endstop : Int
  requests : List Request
  opto : Int
  now_track : Nat
  now_stuck : Nat
deriving DecidableEq, Repr

/-- `loop`. -/
def loop (i : CycleInput) (s : Controller) : Controller :=
  let s1 := handle_endstop i.endstop s
  let s2 :=
    if s1.g_system_state ≠ CALIBRATING then
      handle_output (handle_client i.requests s1)
    else s1
  motor_stuck_protection i.now_stuck (track_position i.opto i.now_track s2)

/-- Successive passes of `loop`, one per element of `inputs`. -/
def run_loop (inputs : List CycleInput) (s : Controller) : Controller :=
  inputs.foldl (fun t i => loop i t) s

/-- One call of a function that writes the globals. -/
inductive Op where
  | motor_request (action : String)
  | height_request (h : Int)
  | output
  | endstop (r : Int)
  | track (r : Int) (now : Nat)
  | stuck (now : Nat)

/-- The call that the operation stands for. -/
def Op.apply (op : Op) (s : Controller) : Controller :=
  match op with
  | .motor_request action => handle_motor_requests action s
  | .height_request h => handle_height_requests h s
  | .output => handle_output s
  | .endstop r => handle_endstop r s
  | .track r now => track_position r now s
  | .stuck now => motor_stuck_protection now s

/-- The argument of a height request is an `int`. -/
def Op.typed (op : Op) : Prop :=
  match op with
  | .height_request h => is_int32 h
  | _ => True

/-- The calls `ops` made in order. -/
def run_ops (ops : List Op) (s : Controller) : Controller :=
  ops.foldl (fun t op => op.apply t) s

/-! ## Rational reading of the floating-point operations

The functions below say on rationals what the integer algorithms above compute; the
theorems of the next section prove that they agree. -/

/-- The rational value `m * 2 ^ e` of a binary floating-point value. -/
def Binary.val (a : Binary) : ℚ := (a.m : ℚ) * 2 ^ a.e

/-- The integer nearest to the rational `x`, ties to even. -/
def rneQ (x : ℚ) : ℤ :=
  if x - ⌊x⌋ < 1 / 2 then ⌊x⌋
  else if 1 / 2 < x - ⌊x⌋ then ⌊x⌋ + 1
  else if ⌊x⌋ % 2 = 0 then ⌊x⌋ else ⌊x⌋ + 1

/-- The rational `x` rounded to a binary floating-point value with `prec` significant
bits (round to nearest, ties to even; exponent unbounded). -/
def flQ (prec : ℕ) (x : ℚ) : ℚ :=
  if x = 0 then 0
  else (rneQ (x / 2 ^ (Int.log 2 |x| - ((prec : ℤ) - 1))) : ℚ) *
    2 ^ (Int.log 2 |x| - ((prec : ℤ) - 1))

/-- The rational `x` with its fractional part discarded (rounding toward zero). -/
def truncQ (x : ℚ) : ℤ := if 0 ≤ x then ⌊x⌋ else ⌈x⌉

/-- The `double` sum that `get_current_height` converts to `int`, as a rational. -/
def heightQ (p : ℤ) : ℚ :=
  flQ 53 (flQ 53 (flQ 53 (flQ 53 (p : ℚ) / 4) / (9118052 / 4194304)) + 70)

/-! ## Inputs used in the statements -/

/-- A controller at rest at the floor reference: `HOLD`, position `0`, no target. -/
def Controller.atRest : Controller :=
  { Controller.initial 0 with g_system_state := HOLD }

/-- Every reading of `rs` differs from the reading before it, the first one from `prev`:
each cycle sees an edge. -/
def all_edges : Int → List (Int × Nat) → Bool
  | _, [] => true
  | prev, r :: rs => decide (prev ≠ r.1) && all_edges r.1 rs

/-- Readings of `n` cycles in each of which the sensor changes: 1, 0, 1, ... at the
times 0, 1, 2, ... -/
def alternating_edges (n : Nat) : List (Int × Nat) :=
  (List.range n).map (fun k => ((((k + 1) % 2 : Nat) : Int), k))

/-! ## Floating point: the algorithms and their rational reading -/

theorem rneQ_dist (x : ℚ) : |x - rneQ x| ≤ 1 / 2 := by
  have h0 : (0 : ℚ) ≤ x - ⌊x⌋ := sub_nonneg.mpr (Int.floor_le x)
  have h1 : x - ⌊x⌋ < 1 := by linarith [Int.lt_floor_add_one x]
  unfold rneQ
  split_ifs with h2 h3 h4
  · rw [abs_le]; constructor <;> linarith
  · rw [abs_le]; push_cast; constructor <;> linarith
  · rw [abs_le]; constructor <;> linarith
  · rw [abs_le]; push_cast; constructor <;> linarith

theorem rneQ_tie (x : ℚ) (h : |x - rneQ x| = 1 / 2) : rneQ x % 2 = 0 := by
  have h0 : (0 : ℚ) ≤ x - ⌊x⌋ := sub_nonneg.mpr (Int.floor_le x)
  have h1 : x - ⌊x⌋ < 1 := by linarith [Int.lt_floor_add_one x]
  unfold rneQ at h ⊢
  split_ifs at h ⊢ with h2 h3 h4
  · rw [abs_of_nonneg h0] at h; linarith
  · push_cast at h
    rw [abs_of_nonpos (by linarith)] at h; linarith
  · exact h4
  · omega

theorem rneQ_unique (x : ℚ) (r : ℤ) (hd : |x - r| ≤ 1 / 2)
    (ht : |x - r| = 1 / 2 → r % 2 = 0) : rneQ x = r := by
  have hq := rneQ_dist x
  have hqt := rneQ_tie x
  rw [abs_le] at hd hq
  by_contra hne
  rcases lt_or_gt_of_ne hne with hlt | hgt
  · have h1 : rneQ x + 1 ≤ r := hlt
    have h1' : (rneQ x : ℚ) + 1 ≤ r := by exact_mod_cast h1
    have e1 : x - rneQ x = 1 / 2 := by linarith
    have e2 : x - r = -(1 / 2) := by linarith
    have p1 := hqt (by rw [e1]; norm_num)
    have p2 := ht (by rw [e2]; norm_num)
    have e3 : (r : ℚ) = rneQ x + 1 := by linarith
    have e4 : r = rneQ x + 1 := by exact_mod_cast e3
    omega
  · have h1 : r + 1 ≤ rneQ x := hgt
    have h1' : (r : ℚ) + 1 ≤ rneQ x := by exact_mod_cast h1
    have e1 : x - rneQ x = -(1 / 2) := by linarith
    have e2 : x - r = 1 / 2 := by linarith
    have p1 := hqt (by rw [e1]; norm_num)
    have p2 := ht (by rw [e2]; norm_num)
    have e3 : (rneQ x : ℚ) = r + 1 := by linarith
    have e4 : rneQ x = r + 1 := by exact_mod_cast e3
    omega

theorem rneQ_intCast (k : ℤ) : rneQ (k : ℚ) = k :=
  rneQ_unique _ k (by simp) (by simp)

theorem rneQ_neg (x : ℚ) : rneQ (-x) = -rneQ x := by
  apply rneQ_unique
  · have := rneQ_dist x
    push_cast
    rw [show -x - -(rneQ x : ℚ) = -(x - rneQ x) by ring, abs_neg]
    exact this
  · intro h
    push_cast at h
    rw [show -x - -(rneQ x : ℚ) = -(x - rneQ x) by ring, abs_neg] at h
    have := rneQ_tie x h
    omega

theorem rneQ_mono {x y : ℚ} (h : x ≤ y) : rneQ x ≤ rneQ y := by
  rcases eq_or_lt_of_le h with heq | hlt
  · rw [heq]
  · by_contra hc
    have h1 : rneQ y + 1 ≤ rneQ x := not_le.mp hc
    have h1' : (rneQ y : ℚ) + 1 ≤ rneQ x := by exact_mod_cast h1
    have hx := rneQ_dist x
    have hy := rneQ_dist y
    rw [abs_le] at hx hy
    linarith

theorem two_zpow_pos (e : ℤ) : (0 : ℚ) < 2 ^ e := zpow_pos (by norm_num) e

theorem flQ_neg (prec : ℕ) (x : ℚ) : flQ prec (-x) = -flQ prec x := by
  unfold flQ
  by_cases hx : x = 0
  · simp [hx]
  · simp only [neg_eq_zero, hx, if_false, abs_neg, neg_div, rneQ_neg]
    push_cast
    ring

theorem log2_lower {x : ℚ} (hx : 0 < x) : (2 : ℚ) ^ Int.log 2 x ≤ x := by
  have := Int.zpow_log_le_self (b := 2) (by norm_num) hx
  simpa using this

theorem log2_upper (x : ℚ) : x < (2 : ℚ) ^ (Int.log 2 x + 1) := by
  have := Int.lt_zpow_succ_log_self (b := 2) (by norm_num) x
  simpa using this

theorem log2_unique {x : ℚ} {k : ℤ} (h1 : (2 : ℚ) ^ k ≤ x) (h2 : x < (2 : ℚ) ^ (k + 1)) :
    Int.log 2 x = k := by
  have hx : 0 < x := lt_of_lt_of_le (two_zpow_pos k) h1
  have a : k ≤ Int.log 2 x := by
    rw [← Int.zpow_le_iff_le_log (by norm_num) hx]
    simpa using h1
  have b : Int.log 2 x < k + 1 := by
    rw [← Int.lt_zpow_iff_log_lt (by norm_num) hx]
    simpa using h2
  omega

/-- An integer power of two as a rational is the cast of the integer power. -/
theorem two_zpow_natCast (n : ℕ) : ((2 : ℚ) ^ (n : ℤ)) = (((2 : ℤ) ^ n : ℤ) : ℚ) := by
  rw [zpow_natCast]; push_cast; rfl

theorem flQ_pos_le (prec : ℕ) {x : ℚ} (hx : 0 < x) :
    flQ prec x ≤ 2 ^ (Int.log 2 x + 1) := by
  unfold flQ
  rw [if_neg hx.ne', abs_of_pos hx]
  set L := Int.log 2 x
  set E := L - ((prec : ℤ) - 1)
  have hE := two_zpow_pos E
  have h1 : x / 2 ^ E ≤ (((2 : ℤ) ^ prec : ℤ) : ℚ) := by
    rw [← two_zpow_natCast, div_le_iff₀ hE, ← zpow_add₀ (by norm_num : (2 : ℚ) ≠ 0)]
    have : (prec : ℤ) + E = L + 1 := by simp only [E]; ring
    rw [this]
    exact (log2_upper x).le
  have h2 := rneQ_mono h1
  rw [rneQ_intCast] at h2
  have h3 : (rneQ (x / 2 ^ E) : ℚ) ≤ (((2 : ℤ) ^ prec : ℤ) : ℚ) := by exact_mod_cast h2
  calc (rneQ (x / 2 ^ E) : ℚ) * 2 ^ E ≤ (((2 : ℤ) ^ prec : ℤ) : ℚ) * 2 ^ E :=
        mul_le_mul_of_nonneg_right h3 hE.le
    _ = 2 ^ (L + 1) := by
        rw [← two_zpow_natCast, ← zpow_add₀ (by norm_num : (2 : ℚ) ≠ 0)]
        congr 1
        simp only [E]; ring

theorem flQ_pos_ge (prec : ℕ) (hp : 1 ≤ prec) {x : ℚ} (hx : 0 < x) :
    2 ^ (Int.log 2 x) ≤ flQ prec x := by
  unfold flQ
  rw [if_neg hx.ne', abs_of_pos hx]
  set L := Int.log 2 x
  set E := L - ((prec : ℤ) - 1)
  have hE := two_zpow_pos E
  have hcast : (((prec - 1 : ℕ) : ℤ)) = (prec : ℤ) - 1 := by omega
  have h1 : (((2 : ℤ) ^ (prec - 1) : ℤ) : ℚ) ≤ x / 2 ^ E := by
    rw [← two_zpow_natCast, le_div_iff₀ hE, ← zpow_add₀ (by norm_num : (2 : ℚ) ≠ 0)]
    have : ((prec - 1 : ℕ) : ℤ) + E = L := by rw [hcast]; simp only [E]; ring
    rw [this]
    exact log2_lower hx
  have h2 := rneQ_mono h1
  rw [rneQ_intCast] at h2
  have h3 : (((2 : ℤ) ^ (prec - 1) : ℤ) : ℚ) ≤ (rneQ (x / 2 ^ E) : ℚ) := by exact_mod_cast h2
  calc (2 : ℚ) ^ L = (((2 : ℤ) ^ (prec - 1) : ℤ) : ℚ) * 2 ^ E := by
        rw [← two_zpow_natCast, ← zpow_add₀ (by norm_num : (2 : ℚ) ≠ 0)]
        congr 1
        rw [hcast]; simp only [E]; ring
    _ ≤ (rneQ (x / 2 ^ E) : ℚ) * 2 ^ E := mul_le_mul_of_nonneg_right h3 hE.le

theorem flQ_nonneg (prec : ℕ) {x : ℚ} (hx : 0 ≤ x) : 0 ≤ flQ prec x := by
  unfold flQ
  split_ifs with h0
  · exact le_refl _
  · have hE := two_zpow_pos (Int.log 2 |x| - ((prec : ℤ) - 1))
    have h1 : (0 : ℚ) ≤ x / 2 ^ (Int.log 2 |x| - ((prec : ℤ) - 1)) := div_nonneg hx hE.le
    have h2 := rneQ_mono h1
    rw [show (0 : ℚ) = ((0 : ℤ) : ℚ) by norm_num, rneQ_intCast] at h2
    have h3 : (0 : ℚ) ≤ (rneQ (x / 2 ^ (Int.log 2 |x| - ((prec : ℤ) - 1))) : ℚ) := by
      exact_mod_cast h2
    exact mul_nonneg h3 hE.le

theorem flQ_mono_pos (prec : ℕ) (hp : 1 ≤ prec) {x y : ℚ} (hx : 0 < x) (hxy : x ≤ y) :
    flQ prec x ≤ flQ prec y := by
  have hy : 0 < y := lt_of_lt_of_le hx hxy
  have hL : Int.log 2 x ≤ Int.log 2 y := Int.log_mono_right hx hxy
  rcases eq_or_lt_of_le hL with heq | hlt
  · unfold flQ
    rw [if_neg hx.ne', if_neg hy.ne', abs_of_pos hx, abs_of_pos hy, heq]
    have hE := two_zpow_pos (Int.log 2 y - ((prec : ℤ) - 1))
    have h1 : x / 2 ^ (Int.log 2 y - ((prec : ℤ) - 1)) ≤
        y / 2 ^ (Int.log 2 y - ((prec : ℤ) - 1)) := div_le_div_of_nonneg_right hxy hE.le
    have h2 := rneQ_mono h1
    have h3 : (rneQ (x / 2 ^ (Int.log 2 y - ((prec : ℤ) - 1))) : ℚ) ≤
        (rneQ (y / 2 ^ (Int.log 2 y - ((prec : ℤ) - 1))) : ℚ) := by exact_mod_cast h2
    exact mul_le_mul_of_nonneg_right h3 hE.le
  · calc flQ prec x ≤ 2 ^ (Int.log 2 x + 1) := flQ_pos_le prec hx
      _ ≤ 2 ^ Int.log 2 y := zpow_le_zpow_right₀ (by norm_num) (by omega)
      _ ≤ flQ prec y := flQ_pos_ge prec hp hy

/-- Rounding to a binary floating-point format is monotone. -/
theorem flQ_mono (prec : ℕ) (hp : 1 ≤ prec) {x y : ℚ} (hxy : x ≤ y) :
    flQ prec x ≤ flQ prec y := by
  rcases lt_trichotomy x 0 with hx | hx | hx
  · rcases lt_or_le y 0 with hy | hy
    · have h := flQ_mono_pos prec hp (neg_pos.mpr hy) (neg_le_neg hxy)
      rw [flQ_neg, flQ_neg] at h
      linarith
    · have h1 := flQ_nonneg prec (neg_pos.mpr hx).le
      rw [flQ_neg] at h1
      have h2 := flQ_nonneg prec hy
      linarith
  · rw [hx] at hxy ⊢
    have h2 := flQ_nonneg prec hxy
    simpa [flQ] using h2
  · exact flQ_mono_pos prec hp hx hxy

/-- A value `m * 2 ^ e` whose significand `m` fits in `prec` bits is its own rounding. -/
theorem flQ_fixed (prec : ℕ) (m e : ℤ) (hm : |m| < 2 ^ prec) :
    flQ prec ((m : ℚ) * 2 ^ e) = (m : ℚ) * 2 ^ e := by
  by_cases h0 : m = 0
  · simp [h0, flQ]
  have hpe := two_zpow_pos e
  have hx : (m : ℚ) * 2 ^ e ≠ 0 := mul_ne_zero (by exact_mod_cast h0) hpe.ne'
  have habs : |(m : ℚ) * 2 ^ e| = (|m| : ℤ) * 2 ^ e := by
    rw [abs_mul, abs_of_pos hpe]; push_cast; rfl
  have hapos : (0 : ℚ) < |(m : ℚ) * 2 ^ e| := abs_pos.mpr hx
  have hlt : |(m : ℚ) * 2 ^ e| < 2 ^ ((prec : ℤ) + e) := by
    rw [habs, zpow_add₀ (by norm_num : (2 : ℚ) ≠ 0), zpow_natCast]
    have : ((|m| : ℤ) : ℚ) < 2 ^ prec := by exact_mod_cast hm
    exact mul_lt_mul_of_pos_right this hpe
  have hL : Int.log 2 |(m : ℚ) * 2 ^ e| < (prec : ℤ) + e := by
    rw [← Int.lt_zpow_iff_log_lt (by norm_num) hapos]
    simpa using hlt
  unfold flQ
  rw [if_neg hx]
  set E := Int.log 2 |(m : ℚ) * 2 ^ e| - ((prec : ℤ) - 1)
  have hE : E ≤ e := by simp only [E]; omega
  have hdiv : (m : ℚ) * 2 ^ e / 2 ^ E = ((m * 2 ^ (e - E).toNat : ℤ) : ℚ) := by
    rw [mul_div_assoc, ← zpow_sub₀ (by norm_num : (2 : ℚ) ≠ 0)]
    obtain ⟨k, hk⟩ := Int.eq_ofNat_of_zero_le (by omega : 0 ≤ e - E)
    rw [hk, zpow_natCast, Int.toNat_ofNat]
    push_cast
    rfl
  rw [hdiv, rneQ_intCast, ← hdiv, div_mul_cancel₀ _ (two_zpow_pos E).ne']

theorem flQ_intCast (prec : ℕ) (m : ℤ) (hm : |m| < 2 ^ prec) : flQ prec (m : ℚ) = m := by
  have := flQ_fixed prec m 0 hm
  simpa using this

theorem two_zpow_split (k : ℤ) :
    (2 : ℚ) ^ k = ((2 ^ k.toNat : ℕ) : ℚ) / ((2 ^ (-k).toNat : ℕ) : ℚ) := by
  rcases le_total 0 k with hk | hk
  · obtain ⟨n, hn⟩ := Int.eq_ofNat_of_zero_le hk
    subst hn
    have : (-(n : ℤ)).toNat = 0 := by omega
    rw [this]
    simp
  · obtain ⟨n, hn⟩ := Int.eq_ofNat_of_zero_le (neg_nonneg.mpr hk)
    have hk' : k = -(n : ℤ) := by omega
    subst hk'
    have : (-(n : ℤ)).toNat = 0 := by omega
    rw [this]
    simp

theorem Binary.val_eq (a : Binary) : a.val = (a.num : ℚ) / (a.den : ℚ) := by
  unfold Binary.val Binary.num Binary.den
  rw [two_zpow_split a.e]
  push_cast
  ring

theorem Binary.den_pos (a : Binary) : 0 < a.den := by
  unfold Binary.den
  positivity

theorem roundNearestEven_eq (n : ℤ) (d : ℕ) (hd : 0 < d) :
    roundNearestEven n d = rneQ ((n : ℚ) / (d : ℚ)) := by
  have hdq : (0 : ℚ) < (d : ℚ) := by exact_mod_cast hd
  have hfl : ⌊(n : ℚ) / (d : ℚ)⌋ = n / (d : ℤ) := Rat.floor_intCast_div_natCast n d
  have hsplit : (n : ℚ) = (d : ℚ) * ((n / (d : ℤ) : ℤ) : ℚ) + ((n % (d : ℤ) : ℤ) : ℚ) := by
    have := Int.ediv_add_emod n (d : ℤ)
    exact_mod_cast this.symm
  have hfrac : (n : ℚ) / (d : ℚ) - ((n / (d : ℤ) : ℤ) : ℚ) = ((n % (d : ℤ) : ℤ) : ℚ) / (d : ℚ) := by
    field_simp
    linarith
  have c1 : 2 * (n % (d : ℤ)) < (d : ℤ) ↔ ((n % (d : ℤ) : ℤ) : ℚ) / (d : ℚ) < 1 / 2 := by
    rw [div_lt_iff₀ hdq]
    constructor
    · intro h
      have : ((2 * (n % (d : ℤ)) : ℤ) : ℚ) < ((d : ℤ) : ℚ) := by exact_mod_cast h
      push_cast at this
      linarith
    · intro h
      have : ((2 * (n % (d : ℤ)) : ℤ) : ℚ) < ((d : ℤ) : ℚ) := by push_cast; linarith
      exact_mod_cast this
  have c2 : (d : ℤ) < 2 * (n % (d : ℤ)) ↔ 1 / 2 < ((n % (d : ℤ) : ℤ) : ℚ) / (d : ℚ) := by
    rw [lt_div_iff₀ hdq]
    constructor
    · intro h
      have : ((d : ℤ) : ℚ) < ((2 * (n % (d : ℤ)) : ℤ) : ℚ) := by exact_mod_cast h
      push_cast at this
      linarith
    · intro h
      have : ((d : ℤ) : ℚ) < ((2 * (n % (d : ℤ)) : ℤ) : ℚ) := by push_cast; linarith
      exact_mod_cast this
  unfold roundNearestEven rneQ
  simp only [hfl, hfrac, c1, c2]

theorem bitLengthAux_zero (fuel : ℕ) : bitLengthAux fuel 0 = 0 := by
  cases fuel <;> simp [bitLengthAux]

theorem bitLengthAux_spec (fuel : ℕ) :
    ∀ n : ℕ, n ≤ fuel → 0 < n →
      1 ≤ bitLengthAux fuel n ∧ 2 ^ (bitLengthAux fuel n - 1) ≤ n ∧
        n < 2 ^ bitLengthAux fuel n := by
  induction fuel with
  | zero => intro n h1 h2; omega
  | succ fuel ih =>
    intro n h1 h2
    have hn : n ≠ 0 := by omega
    simp only [bitLengthAux, hn, if_false]
    rcases Nat.eq_zero_or_pos (n / 2) with hz | hp
    · rw [hz, bitLengthAux_zero]
      have : n = 1 := by omega
      subst this
      simp
    · obtain ⟨i1, i2, i3⟩ := ih (n / 2) (by omega) hp
      refine ⟨by omega, ?_, ?_⟩
      · have e : bitLengthAux fuel (n / 2) + 1 - 1 = (bitLengthAux fuel (n / 2) - 1) + 1 := by
          omega
        rw [e, pow_succ]
        omega
      · rw [pow_succ]
        omega

theorem bitLength_spec (n : ℕ) (hn : 0 < n) :
    1 ≤ bitLength n ∧ 2 ^ (bitLength n - 1) ≤ n ∧ n < 2 ^ bitLength n :=
  bitLengthAux_spec n n (le_refl n) hn

theorem bitLength_bounds (n : ℕ) (hn : 0 < n) :
    (2 : ℚ) ^ ((bitLength n : ℤ) - 1) ≤ (n : ℚ) ∧ (n : ℚ) < (2 : ℚ) ^ (bitLength n : ℤ) := by
  obtain ⟨h1, h2, h3⟩ := bitLength_spec n hn
  have e : ((bitLength n : ℤ) - 1) = ((bitLength n - 1 : ℕ) : ℤ) := by omega
  rw [e, zpow_natCast, zpow_natCast]
  constructor
  · exact_mod_cast h2
  · exact_mod_cast h3

theorem ilog2Frac_eq (n d : ℕ) (hn : 0 < n) (hd : 0 < d) :
    ilog2Frac n d = Int.log 2 ((n : ℚ) / (d : ℚ)) := by
  have hdq : (0 : ℚ) < (d : ℚ) := by exact_mod_cast hd
  obtain ⟨n1, n2⟩ := bitLength_bounds n hn
  obtain ⟨d1, d2⟩ := bitLength_bounds d hd
  set k : ℤ := (bitLength n : ℤ) - (bitLength d : ℤ) with hk
  have two_ne : (2 : ℚ) ≠ 0 := by norm_num
  have hup : (n : ℚ) / (d : ℚ) < 2 ^ (k + 1) := by
    rw [div_lt_iff₀ hdq]
    calc (n : ℚ) < 2 ^ (bitLength n : ℤ) := n2
      _ = 2 ^ (k + 1) * 2 ^ ((bitLength d : ℤ) - 1) := by
          rw [← zpow_add₀ two_ne]; congr 1; simp only [hk]; ring
      _ ≤ 2 ^ (k + 1) * (d : ℚ) := mul_le_mul_of_nonneg_left d1 (two_zpow_pos _).le
  have hlo : (2 : ℚ) ^ (k - 1) ≤ (n : ℚ) / (d : ℚ) := by
    rw [le_div_iff₀ hdq]
    calc (2 : ℚ) ^ (k - 1) * (d : ℚ) ≤ 2 ^ (k - 1) * 2 ^ (bitLength d : ℤ) :=
          mul_le_mul_of_nonneg_left d2.le (two_zpow_pos _).le
      _ = 2 ^ ((bitLength n : ℤ) - 1) := by
          rw [← zpow_add₀ two_ne]; congr 1; simp only [hk]; ring
      _ ≤ (n : ℚ) := n1
  have htest : d * 2 ^ k.toNat ≤ n * 2 ^ (-k).toNat ↔ (2 : ℚ) ^ k ≤ (n : ℚ) / (d : ℚ) := by
    have hpos : (0 : ℚ) < ((2 ^ (-k).toNat : ℕ) : ℚ) := by positivity
    rw [two_zpow_split k, le_div_iff₀ hdq, div_mul_eq_mul_div, div_le_iff₀ hpos]
    constructor
    · intro h
      have : ((d * 2 ^ k.toNat : ℕ) : ℚ) ≤ ((n * 2 ^ (-k).toNat : ℕ) : ℚ) := by exact_mod_cast h
      push_cast at this ⊢
      linarith
    · intro h
      have : ((d * 2 ^ k.toNat : ℕ) : ℚ) ≤ ((n * 2 ^ (-k).toNat : ℕ) : ℚ) := by
        push_cast at h ⊢
        linarith
      exact_mod_cast this
  unfold ilog2Frac
  simp only [← hk]
  split_ifs with ht
  · exact (log2_unique (htest.mp ht) hup).symm
  · have hlt : (n : ℚ) / (d : ℚ) < 2 ^ k := not_le.mp (fun h => ht (htest.mpr h))
    exact (log2_unique hlo (by simpa using hlt)).symm

theorem roundBinary_val (prec : ℕ) (n : ℤ) (d : ℕ) (hd : 0 < d) :
    (roundBinary prec n d).val = flQ prec ((n : ℚ) / (d : ℚ)) := by
  have hdq : (0 : ℚ) < (d : ℚ) := by exact_mod_cast hd
  by_cases hn : n = 0
  · simp [roundBinary, hn, Binary.val, flQ]
  have hnq : (n : ℚ) / (d : ℚ) ≠ 0 := div_ne_zero (by exact_mod_cast hn) hdq.ne'
  have habs : |(n : ℚ) / (d : ℚ)| = ((n.natAbs : ℕ) : ℚ) / (d : ℚ) := by
    rw [abs_div, abs_of_pos hdq]
    congr 1
    rw [Nat.cast_natAbs]
    push_cast
    rfl
  have hlog : ilog2Frac n.natAbs d = Int.log 2 |(n : ℚ) / (d : ℚ)| := by
    rw [habs]
    exact ilog2Frac_eq _ _ (Int.natAbs_pos.mpr hn) hd
  unfold roundBinary flQ
  rw [if_neg hn, if_neg hnq]
  simp only [Binary.val, hlog]
  set E := Int.log 2 |(n : ℚ) / (d : ℚ)| - ((prec : ℤ) - 1)
  have hr := roundNearestEven_eq (n * 2 ^ (-E).toNat) (d * 2 ^ E.toNat) (by positivity)
  rw [hr]
  congr 2
  rw [two_zpow_split E]
  push_cast
  field_simp

theorem truncQ_mono {x y : ℚ} (h : x ≤ y) : truncQ x ≤ truncQ y := by
  unfold truncQ
  split_ifs with hx hy hy
  · exact Int.floor_le_floor h
  · exact absurd (le_trans hx h) hy
  · have h1 : ⌈x⌉ ≤ 0 := Int.ceil_le.mpr (by push_cast; exact (not_le.mp hx).le)
    have h2 : 0 ≤ ⌊y⌋ := Int.floor_nonneg.mpr hy
    omega
  · exact Int.ceil_le_ceil h

theorem Binary.ofInt_val (p : ℤ) : (Binary.ofInt p).val = flQ 53 (p : ℚ) := by
  unfold Binary.ofInt
  rw [roundBinary_val 53 p 1 (by norm_num)]
  simp

theorem Binary.num_pos {b : Binary} (hb : 0 < b.m) : 0 < b.num := by
  unfold Binary.num
  positivity

theorem Binary.div_val (a b : Binary) (hb : 0 < b.m) :
    (Binary.div a b).val = flQ 53 (a.val / b.val) := by
  have hnum := Binary.num_pos hb
  have hsign : b.num.sign = 1 := Int.sign_eq_one_of_pos hnum
  have hda := a.den_pos
  have hdb := b.den_pos
  have hdaq : (0 : ℚ) < (a.den : ℚ) := by exact_mod_cast hda
  have hdbq : (0 : ℚ) < (b.den : ℚ) := by exact_mod_cast hdb
  have hnq : (0 : ℚ) < (b.num : ℚ) := by exact_mod_cast hnum
  have hnat : ((b.num.natAbs : ℕ) : ℚ) = (b.num : ℚ) := by
    rw [Nat.cast_natAbs, abs_of_pos hnum]
  unfold Binary.div
  rw [roundBinary_val 53 _ _ (Nat.mul_pos hda (Int.natAbs_pos.mpr hnum.ne')), hsign,
    a.val_eq, b.val_eq]
  congr 1
  push_cast
  rw [hnat]
  field_simp

theorem Binary.add_val (a b : Binary) :
    (Binary.add a b).val = flQ 53 (a.val + b.val) := by
  have hda := a.den_pos
  have hdb := b.den_pos
  have hdaq : (0 : ℚ) < (a.den : ℚ) := by exact_mod_cast hda
  have hdbq : (0 : ℚ) < (b.den : ℚ) := by exact_mod_cast hdb
  unfold Binary.add
  rw [roundBinary_val 53 _ _ (Nat.mul_pos hda hdb), a.val_eq, b.val_eq]
  congr 1
  push_cast
  field_simp

theorem Binary.toInt_eq (a : Binary) : a.toInt = truncQ a.val := by
  have hd := a.den_pos
  have hdz : (0 : ℤ) < (a.den : ℤ) := by exact_mod_cast hd
  have hdq : (0 : ℚ) < (a.den : ℚ) := by exact_mod_cast hd
  unfold Binary.toInt truncQ
  rw [a.val_eq]
  rcases le_or_lt 0 a.num with hn | hn
  · have h0 : (0 : ℚ) ≤ (a.num : ℚ) / (a.den : ℚ) := div_nonneg (by exact_mod_cast hn) hdq.le
    rw [if_pos h0, Rat.floor_intCast_div_natCast, Int.tdiv_eq_ediv hn hdz.le]
  · have h0 : ¬ (0 : ℚ) ≤ (a.num : ℚ) / (a.den : ℚ) :=
      not_le.mpr (div_neg_of_neg_of_pos (by exact_mod_cast hn) hdq)
    rw [if_neg h0]
    have e1 : a.num.tdiv (a.den : ℤ) = -((-a.num) / (a.den : ℤ)) := by
      rw [← Int.tdiv_eq_ediv (by omega) hdz.le, Int.neg_tdiv, neg_neg]
    have e2 : ⌈(a.num : ℚ) / (a.den : ℚ)⌉ = -⌊((-a.num : ℤ) : ℚ) / (a.den : ℚ)⌋ := by
      rw [Int.ceil_eq_iff]  
      have := Int.floor_le (((-a.num : ℤ) : ℚ) / (a.den : ℚ))
      have := Int.lt_floor_add_one (((-a.num : ℤ) : ℚ) / (a.den : ℚ))
      push_cast at *
      rw [neg_div] at *
      constructor <;> linarith
    rw [e1, e2, Rat.floor_intCast_div_natCast]

theorem ROTATION_TO_HEIGHT_RATIO_eq : ROTATION_TO_HEIGHT_RATIO = ⟨9118052, -22⟩ := by decide

theorem height_of_position_eq (p : ℤ) : height_of_position p = truncQ (heightQ p) := by
  have h4 : (⟨4, 0⟩ : Binary).val = 4 := by simp [Binary.val]
  have hr : ROTATION_TO_HEIGHT_RATIO.val = 9118052 / 4194304 := by
    rw [ROTATION_TO_HEIGHT_RATIO_eq]
    simp only [Binary.val]
    norm_num
  have h70 : (Binary.ofInt MIN_HEIGHT).val = 70 := by
    rw [Binary.ofInt_val]
    have := flQ_intCast 53 70 (by norm_num)
    simpa [MIN_HEIGHT] using this
  have hrpos : 0 < ROTATION_TO_HEIGHT_RATIO.m := by rw [ROTATION_TO_HEIGHT_RATIO_eq]; decide
  unfold height_of_position heightQ
  rw [Binary.toInt_eq, Binary.add_val, Binary.div_val _ _ hrpos,
    Binary.div_val _ _ (by decide), Binary.ofInt_val, h4, hr, h70]

theorem heightQ_mono {p q : ℤ} (h : p ≤ q) : heightQ p ≤ heightQ q := by
  unfold heightQ
  have hpq : (p : ℚ) ≤ (q : ℚ) := by exact_mod_cast h
  have s1 := flQ_mono 53 (by norm_num) hpq
  have s2 : flQ 53 (p : ℚ) / 4 ≤ flQ 53 (q : ℚ) / 4 :=
    div_le_div_of_nonneg_right s1 (by norm_num)
  have s3 := flQ_mono 53 (by norm_num) s2
  have s4 : flQ 53 (flQ 53 (p : ℚ) / 4) / (9118052 / 4194304) ≤
      flQ 53 (flQ 53 (q : ℚ) / 4) / (9118052 / 4194304) :=
    div_le_div_of_nonneg_right s3 (by norm_num)
  have s5 := flQ_mono 53 (by norm_num) s4
  exact flQ_mono 53 (by norm_num) (by linarith)

theorem height_of_position_mono {p q : ℤ} (h : p ≤ q) :
    height_of_position p ≤ height_of_position q := by
  rw [height_of_position_eq, height_of_position_eq]
  exact truncQ_mono (heightQ_mono h)

theorem heightQ_bounds (p : ℤ) (hlo : -199 ≤ p) (hhi : p ≤ 1000000) :
    (((23 * p) / 200 + 70 : ℤ) : ℚ) ≤ heightQ p ∧
      heightQ p < (((23 * p) / 200 + 70 : ℤ) : ℚ) + 1 := by
  set k : ℤ := (23 * p) / 200 with hk
  have hA : k * 2279513 ≤ p * 262144 := by omega
  have hB : p * 268435456 ≤ 2334221312 * k + 2331941799 := by omega
  have hkb : -23 ≤ k ∧ k ≤ 115000 := by omega
  have hAq : (k : ℚ) * 2279513 ≤ (p : ℚ) * 262144 := by exact_mod_cast hA
  have hBq : (p : ℚ) * 268435456 ≤ 2334221312 * (k : ℚ) + 2331941799 := by exact_mod_cast hB
  have e1 : flQ 53 (p : ℚ) = p := flQ_intCast 53 p (by rw [abs_lt]; constructor <;> omega)
  have e2 : flQ 53 ((p : ℚ) / 4) = (p : ℚ) / 4 := by
    have := flQ_fixed 53 p (-2) (by rw [abs_lt]; constructor <;> omega)
    have e : (p : ℚ) * 2 ^ (-2 : ℤ) = (p : ℚ) / 4 := by
      rw [zpow_neg]; norm_num; ring
    rwa [e] at this
  have fk : flQ 53 (k : ℚ) = k := flQ_intCast 53 k (by rw [abs_lt]; constructor <;> omega)
  have fB : flQ 53 (((1024 * (k + 1) - 1 : ℤ) : ℚ) * 2 ^ (-10 : ℤ)) =
      ((1024 * (k + 1) - 1 : ℤ) : ℚ) * 2 ^ (-10 : ℤ) :=
    flQ_fixed 53 _ (-10) (by rw [abs_lt]; constructor <;> omega)
  have fk70 : flQ 53 ((k + 70 : ℤ) : ℚ) = ((k + 70 : ℤ) : ℚ) :=
    flQ_intCast 53 _ (by rw [abs_lt]; constructor <;> omega)
  have fB70 : flQ 53 (((1024 * (k + 71) - 1 : ℤ) : ℚ) * 2 ^ (-10 : ℤ)) =
      ((1024 * (k + 71) - 1 : ℤ) : ℚ) * 2 ^ (-10 : ℤ) :=
    flQ_fixed 53 _ (-10) (by rw [abs_lt]; constructor <;> omega)
  have hpow : (2 : ℚ) ^ (-10 : ℤ) = 1 / 1024 := by rw [zpow_neg]; norm_num
  rw [hpow] at fB fB70
  have x1 : (k : ℚ) ≤ (p : ℚ) / 4 / (9118052 / 4194304) := by
    rw [le_div_iff₀ (by norm_num)]
    linarith
  have x2 : (p : ℚ) / 4 / (9118052 / 4194304) ≤ ((1024 * (k + 1) - 1 : ℤ) : ℚ) * (1 / 1024) := by
    rw [div_le_iff₀ (by norm_num)]
    push_cast
    linarith
  have y1 := flQ_mono 53 (by norm_num) x1
  have y2 := flQ_mono 53 (by norm_num) x2
  rw [fk] at y1
  rw [fB] at y2
  have z1 : ((k + 70 : ℤ) : ℚ) ≤ flQ 53 ((p : ℚ) / 4 / (9118052 / 4194304)) + 70 := by
    push_cast; linarith
  have z2 : flQ 53 ((p : ℚ) / 4 / (9118052 / 4194304)) + 70 ≤
      ((1024 * (k + 71) - 1 : ℤ) : ℚ) * (1 / 1024) := by
    push_cast at y2 ⊢; linarith
  have w1 := flQ_mono 53 (by norm_num) z1
  have w2 := flQ_mono 53 (by norm_num) z2
  rw [fk70] at w1
  rw [fB70] at w2
  unfold heightQ
  rw [e1, e2]
  constructor
  · exact w1
  · push_cast at w2 ⊢
    linarith

theorem height_of_position_formula (p : ℤ) (hlo : -199 ≤ p) (hhi : p ≤ 1000000) :
    height_of_position p = ⌊(23 * (p : ℚ)) / 200⌋ + 70 := by
  obtain ⟨h1, h2⟩ := heightQ_bounds p hlo hhi
  have hfl : ⌊(23 * (p : ℚ)) / 200⌋ = (23 * p) / 200 := by
    have := Rat.floor_intCast_div_natCast (23 * p) 200
    push_cast at this
    exact this
  have hnn : (0 : ℚ) ≤ heightQ p := by
    have : (0 : ℤ) ≤ (23 * p) / 200 + 70 := by omega
    have : (0 : ℚ) ≤ (((23 * p) / 200 + 70 : ℤ) : ℚ) := by exact_mod_cast this
    linarith
  rw [height_of_position_eq, hfl]
  unfold truncQ
  rw [if_pos hnn, Int.floor_eq_iff]
  exact ⟨h1, h2⟩

/-! ## Requests -/

theorem toUnsigned_of_nonneg {x : Int} (h0 : 0 ≤ x) (h1 : x < 2 ^ 32) :
    (toUnsigned x : Int) = x := by
  unfold toUnsigned
  rw [Int.emod_eq_of_lt h0 h1]
  exact Int.toNat_of_nonneg h0

theorem toUnsigned_of_neg {x : Int} (h0 : -(2 ^ 31) ≤ x) (h1 : x < 0) :
    (toUnsigned x : Int) = x + 2 ^ 32 := by
  unfold toUnsigned
  have h2 : x % 2 ^ 32 = x + 2 ^ 32 := by
    rw [← Int.add_emod_self]
    exact Int.emod_eq_of_lt (by omega) (by omega)
  rw [h2]
  exact Int.toNat_of_nonneg (by omega)

/-- C1: for a requested height `h` with `MIN_HEIGHT ≤ h ≤ MAX_HEIGHT`,
`handle_height_requests` sets the target to `h` and the state to `UP` when the current
height is below `h`, sets the target to `h` and the state to `DOWN` when it is above `h`,
and changes nothing when it equals `h`; the position is never changed. -/
theorem handle_height_requests_in_range (s : Controller) (h : Int)
    (hmin : (MIN_HEIGHT : Int) ≤ h) (hmax : h ≤ (MAX_HEIGHT : Int)) :
    (get_current_height s < h →
      handle_height_requests h s = { s with g_custom_height := h, g_system_state := UP }) ∧
    (get_current_height s > h →
      handle_height_requests h s = { s with g_custom_height := h, g_system_state := DOWN }) ∧
    (get_current_height s = h → handle_height_requests h s = s) ∧
    (handle_height_requests h s).g_opto_position = s.g_opto_position := by
  have hu : (toUnsigned h : Int) = h :=
    toUnsigned_of_nonneg (by simp [MIN_HEIGHT] at hmin; omega) (by simp [MAX_HEIGHT] at hmax; omega)
  have hc : toUnsigned h ≥ MIN_HEIGHT ∧ toUnsigned h ≤ MAX_HEIGHT := by
    constructor
    · have : (MIN_HEIGHT : Int) ≤ (toUnsigned h : Int) := by rw [hu]; exact hmin
      exact_mod_cast this
    · have : (toUnsigned h : Int) ≤ (MAX_HEIGHT : Int) := by rw [hu]; exact hmax
      exact_mod_cast this
  refine ⟨fun hlt => ?_, fun hgt => ?_, fun heq => ?_, ?_⟩
  · simp only [handle_height_requests, hc, and_self, if_true, hlt]
  · have hnlt : ¬ get_current_height s < h := not_lt.mpr (le_of_lt hgt)
    simp only [handle_height_requests, hc, and_self, if_true, hnlt, if_false, hgt]
  · have h1 : ¬ get_current_height s < h := by rw [heq]; exact lt_irrefl _
    have h2 : ¬ get_current_height s > h := by rw [heq]; exact lt_irrefl _
    simp only [handle_height_requests, hc, and_self, if_true, h1, h2, if_false]
  · simp only [handle_height_requests, hc, and_self, if_true]
    split_ifs <;> rfl

/-- C1, at rest at height 70 with a request for 90: the target becomes 90 and the state
`UP`. -/
theorem handle_height_requests_in_range_witness :
    handle_height_requests 90 Controller.atRest =
      { Controller.atRest with g_custom_height := 90, g_system_state := UP } :=
  (handle_height_requests_in_range Controller.atRest 90 (by decide) (by decide)).1 (by decide)

/-- C2: a requested height `h` (a 32-bit `int`) below `MIN_HEIGHT` or above `MAX_HEIGHT`,
negative values included, leaves the whole controller as it was: state, target and
position are unchanged. -/
theorem handle_height_requests_out_of_range (s : Controller) (h : Int)
    (hlo : -(2 ^ 31) ≤ h) (hhi : h < 2 ^ 31)
    (hout : h < (MIN_HEIGHT : Int) ∨ (MAX_HEIGHT : Int) < h) :
    handle_height_requests h s = s := by
  have hc : ¬ (toUnsigned h ≥ MIN_HEIGHT ∧ toUnsigned h ≤ MAX_HEIGHT) := by
    rintro ⟨h1, h2⟩
    have h1' : (MIN_HEIGHT : Int) ≤ (toUnsigned h : Int) := by exact_mod_cast h1
    have h2' : (toUnsigned h : Int) ≤ (MAX_HEIGHT : Int) := by exact_mod_cast h2
    simp only [MIN_HEIGHT, MAX_HEIGHT, Nat.cast_ofNat] at h1' h2' hout
    by_cases hneg : h < 0
    · rw [toUnsigned_of_neg hlo hneg] at h2'
      omega
    · rw [toUnsigned_of_nonneg (not_lt.mp hneg) (by omega)] at h1' h2'
      omega
  simp only [handle_height_requests, hc, if_false]

/-- C2, for the request `-5` while the table travels up to the target 90. -/
theorem handle_height_requests_out_of_range_witness :
    handle_height_requests (-5)
        { Controller.atRest with g_system_state := UP, g_custom_height := 90 } =
      { Controller.atRest with g_system_state := UP, g_custom_height := 90 } :=
  handle_height_requests_out_of_range _ (-5) (by decide) (by decide) (Or.inl (by decide))

/-- C3: `handle_motor_requests` with `"up"`, `"down"`, `"stop"` sets the state to `UP`,
`DOWN`, `HOLD` respectively, whatever it was; in each case the target is cleared
(`g_custom_height = -1`) and nothing else, the position in particular, changes. -/
theorem handle_motor_requests_known (s : Controller) :
    handle_motor_requests "up" s = { s with g_system_state := UP, g_custom_height := -1 } ∧
    handle_motor_requests "down" s =
      { s with g_system_state := DOWN, g_custom_height := -1 } ∧
    handle_motor_requests "stop" s =
      { s with g_system_state := HOLD, g_custom_height := -1 } ∧
    (handle_motor_requests "up" s).g_opto_position = s.g_opto_position ∧
    (handle_motor_requests "down" s).g_opto_position = s.g_opto_position ∧
    (handle_motor_requests "stop" s).g_opto_position = s.g_opto_position := by
  refine ⟨?_, ?_, ?_, ?_, ?_, ?_⟩ <;> simp [handle_motor_requests]

/-- An action other than `"up"`, `"down"`, `"stop"` keeps the state and the position and
clears the target: `g_custom_height = -1` follows the `if` chain on every path. -/
theorem handle_motor_requests_other (action : String) (s : Controller)
    (h1 : action ≠ "up") (h2 : action ≠ "down") (h3 : action ≠ "stop") :
    handle_motor_requests action s = { s with g_custom_height := -1 } := by
  simp [handle_motor_requests, h1, h2, h3]

/-- C4 (what the code does): on the way up to the target 90, the unknown action `"left"`
keeps the state `UP` and the position but clears the target (`g_custom_height = -1`), so
the controller after the call differs from the controller before it. -/
theorem handle_motor_requests_unknown_clears_target :
    (handle_motor_requests "left"
        { Controller.atRest with g_system_state := UP, g_custom_height := 90 }) =
      { Controller.atRest with g_system_state := UP, g_custom_height := -1 } ∧
    handle_motor_requests "left"
        { Controller.atRest with g_system_state := UP, g_custom_height := 90 } ≠
      { Controller.atRest with g_system_state := UP, g_custom_height := 90 } := by
  refine ⟨by decide, by decide⟩

/-! ## Position tracking -/

theorem wrap_int32_of_int32 {x : Int} (h : is_int32 x) : wrap_int32 x = x := by
  obtain ⟨h1, h2⟩ := h
  unfold wrap_int32
  omega

theorem track_position_state (r : Int) (now : Nat) (s : Controller) :
    (track_position r now s).g_system_state = s.g_system_state := by
  by_cases h1 : s.g_opto_state = r <;> by_cases h2 : s.g_system_state = UP <;>
    simp [track_position, h1, h2]

/-- On an edge in state `UP` the position is stepped up by one as an `int`. -/
theorem track_position_edge_up (r : Int) (now : Nat) (s : Controller)
    (hne : s.g_opto_state ≠ r) (hup : s.g_system_state = UP) :
    track_position r now s =
      { s with g_opto_state := r, g_last_opto_change_time := now,
               g_opto_position := wrap_int32 (s.g_opto_position + 1) } := by
  simp only [track_position, hne, ne_eq, not_false_eq_true, if_true, hup]

/-- On an edge in any other state the position is stepped down by one as an `int`. -/
theorem track_position_edge_other (r : Int) (now : Nat) (s : Controller)
    (hne : s.g_opto_state ≠ r) (hnup : s.g_system_state ≠ UP) :
    track_position r now s =
      { s with g_opto_state := r, g_last_opto_change_time := now,
               g_opto_position := wrap_int32 (s.g_opto_position - 1) } := by
  simp only [track_position, hne, ne_eq, not_false_eq_true, if_true, hnup, if_false]

theorem run_track_edges (rs : List (Int × Nat)) :
    ∀ s : Controller, all_edges s.g_opto_state rs = true → is_int32 s.g_opto_position →
      (run_track rs s).g_system_state = s.g_system_state ∧
      (s.g_system_state = UP → is_int32 (s.g_opto_position + rs.length) →
        (run_track rs s).g_opto_position = s.g_opto_position + rs.length) ∧
      (s.g_system_state ≠ UP → is_int32 (s.g_opto_position - rs.length) →
        (run_track rs s).g_opto_position = s.g_opto_position - rs.length) := by
  induction rs with
  | nil => intro s _ _; simp [run_track]
  | cons r rs ih =>
    intro s h hp
    simp only [all_edges, Bool.and_eq_true, decide_eq_true_eq] at h
    obtain ⟨hne, hrest⟩ := h
    obtain ⟨p1, p2⟩ := hp
    have hst := track_position_state r.1 r.2 s
    have hrun : run_track (r :: rs) s = run_track rs (track_position r.1 r.2 s) := rfl
    have hlen : ((r :: rs).length : Int) = (rs.length : Int) + 1 := by simp
    rw [hrun, hlen]
    by_cases hup : s.g_system_state = UP
    · refine ⟨?_, fun _ hq => ?_, fun hn => absurd hup hn⟩
      · have e := track_position_edge_up r.1 r.2 s hne hup
        obtain ⟨i1, _, _⟩ := ih (track_position r.1 r.2 s) (by rw [e]; exact hrest)
          (by
            rw [e]
            show is_int32 (wrap_int32 (s.g_opto_position + 1))
            unfold is_int32 wrap_int32
            omega)
        rw [i1, hst]
      · obtain ⟨q1, q2⟩ := hq
        have hw : wrap_int32 (s.g_opto_position + 1) = s.g_opto_position + 1 :=
          wrap_int32_of_int32 ⟨by omega, by omega⟩
        have e := track_position_edge_up r.1 r.2 s hne hup
        rw [hw] at e
        obtain ⟨_, i2, _⟩ := ih (track_position r.1 r.2 s) (by rw [e]; exact hrest)
          (by rw [e]; exact ⟨by show -(2 ^ 31) ≤ s.g_opto_position + 1; omega,
                             by show s.g_opto_position + 1 < 2 ^ 31; omega⟩)
        rw [i2 (by rw [hst]; exact hup) (by
          rw [e]
          show is_int32 (s.g_opto_position + 1 + rs.length)
          exact ⟨by omega, by omega⟩), e]
        show s.g_opto_position + 1 + (rs.length : Int) = s.g_opto_position + ((rs.length : Int) + 1)
        ring
    · refine ⟨?_, fun hu => absurd hu hup, fun _ hq => ?_⟩
      · have e := track_position_edge_other r.1 r.2 s hne hup
        obtain ⟨i1, _, _⟩ := ih (track_position r.1 r.2 s) (by rw [e]; exact hrest)
          (by
            rw [e]
            show is_int32 (wrap_int32 (s.g_opto_position - 1))
            unfold is_int32 wrap_int32
            omega)
        rw [i1, hst]
      · obtain ⟨q1, q2⟩ := hq
        have hw : wrap_int32 (s.g_opto_position - 1) = s.g_opto_position - 1 :=
          wrap_int32_of_int32 ⟨by omega, by omega⟩
        have e := track_position_edge_other r.1 r.2 s hne hup
        rw [hw] at e
        obtain ⟨_, _, i3⟩ := ih (track_position r.1 r.2 s) (by rw [e]; exact hrest)
          (by rw [e]; exact ⟨by show -(2 ^ 31) ≤ s.g_opto_position - 1; omega,
                             by show s.g_opto_position - 1 < 2 ^ 31; omega⟩)
        rw [i3 (by rw [hst]; exact hup) (by
          rw [e]
          show is_int32 (s.g_opto_position - 1 - rs.length)
          exact ⟨by omega, by omega⟩), e]
        show s.g_opto_position - 1 - (rs.length : Int) = s.g_opto_position - ((rs.length : Int) + 1)
        ring

/-- C5 (as stated, refuted): at position 2147483647 in state `UP` an edge takes the
position to -2147483648, not to 2147483648; at position -2147483648 in state `HOLD` an
edge takes it to 2147483647, not to -2147483649. -/
theorem track_position_wraps :
    (track_position 1 5
      { Controller.atRest with g_system_state := UP, g_opto_state := 0,
                               g_opto_position := 2147483647 }).g_opto_position
      = -2147483648 ∧
    (track_position 1 5
      { Controller.atRest with g_system_state := UP, g_opto_state := 0,
                               g_opto_position := 2147483647 }).g_opto_position
      ≠ 2147483647 + 1 ∧
    (track_position 1 5
      { Controller.atRest with g_opto_state := 0,
                               g_opto_position := -2147483648 }).g_opto_position
      = 2147483647 ∧
    (track_position 1 5
      { Controller.atRest with g_opto_state := 0,
                               g_opto_position := -2147483648 }).g_opto_position
      ≠ -2147483648 - 1 := by
  refine ⟨by decide, by decide, by decide, by decide⟩

/-- C5 (amended): on an edge (the reading differs from the stored one) `track_position`
stores the reading, sets `g_last_opto_change_time` to `now`, and adds 1 to the position in
state `UP` when the sum is still an `int`, or subtracts 1 in every other state when the
difference is still an `int`; without an edge it changes nothing. It never changes the
state, so over `n` cycles that each see an edge, starting from an `int` position, the
position grows by exactly `n` in state `UP` when the sum is still an `int`, and falls by
exactly `n` in any other state when the difference is still an `int`. -/
theorem track_position_spec (s : Controller) (r : Int) (now : Nat) :
    (s.g_opto_state ≠ r → s.g_system_state = UP → is_int32 (s.g_opto_position + 1) →
      track_position r now s =
        { s with g_opto_state := r, g_last_opto_change_time := now,
                 g_opto_position := s.g_opto_position + 1 }) ∧
    (s.g_opto_state ≠ r → s.g_system_state ≠ UP → is_int32 (s.g_opto_position - 1) →
      track_position r now s =
        { s with g_opto_state := r, g_last_opto_change_time := now,
                 g_opto_position := s.g_opto_position - 1 }) ∧
    (s.g_opto_state = r → track_position r now s = s) ∧
    (∀ rs : List (Int × Nat), all_edges s.g_opto_state rs = true →
      is_int32 s.g_opto_position →
      (run_track rs s).g_system_state = s.g_system_state ∧
      (s.g_system_state = UP → is_int32 (s.g_opto_position + rs.length) →
        (run_track rs s).g_opto_position = s.g_opto_position + rs.length) ∧
      (s.g_system_state ≠ UP → is_int32 (s.g_opto_position - rs.length) →
        (run_track rs s).g_opto_position = s.g_opto_position - rs.length)) := by
  refine ⟨fun hne hup hq => ?_, fun hne hnup hq => ?_, fun heq => ?_,
    fun rs => run_track_edges rs s⟩
  · rw [track_position_edge_up r now s hne hup, wrap_int32_of_int32 hq]
  · rw [track_position_edge_other r now s hne hnup, wrap_int32_of_int32 hq]
  · simp only [track_position, heq, ne_eq, not_true_eq_false, if_false]

/-- C5 (amended), from the initial controller (stored reading `-1`, state `CALIBRATING`):
three alternating readings are three edges and take the position from 0 to -3. -/
theorem track_position_spec_witness :
    (run_track [(1, 5), (0, 9), (1, 12)] (Controller.initial 0)).g_opto_position = 0 - 3 :=
  ((track_position_spec (Controller.initial 0) 1 5).2.2.2 [(1, 5), (0, 9), (1, 12)]
    (by decide) ⟨by decide, by decide⟩).2.2 (by decide) ⟨by decide, by decide⟩

/-! ## End-stop -/

theorem handle_endstop_counter (r : Int) (s : Controller) :
    (handle_endstop r s).g_endstop_value_trig_times =
      if r = HIGH then wrap_int32 (s.g_endstop_value_trig_times + 1) else 0 := by
  unfold handle_endstop
  by_cases hr : r = HIGH <;> by_cases hc : s.g_system_state = CALIBRATING <;>
    by_cases hd : s.g_system_state = DOWN <;>
    by_cases hk : wrap_int32 (s.g_endstop_value_trig_times + 1) > 10 <;>
    simp [count_endstop_reading, endstop_confirmed, stop_motor_reset_position, stop_table,
      hr, hc, hd, hk]

theorem confirmed_in_cycle_iff (r : Int) (s : Controller) :
    confirmed_in_cycle r s = true ↔
      r = HIGH ∧ wrap_int32 (s.g_endstop_value_trig_times + 1) > 10 := by
  by_cases hr : r = HIGH <;>
    simp [confirmed_in_cycle, count_endstop_reading, endstop_confirmed, hr]

theorem trailing_high_snoc (rs : List Int) (r : Int) :
    trailing_high (rs ++ [r]) = if r = HIGH then trailing_high rs + 1 else 0 := by
  unfold trailing_high
  by_cases hr : r = HIGH <;> simp [List.takeWhile_cons, hr]

theorem trailing_high_replicate (n : Nat) : trailing_high (List.replicate n HIGH) = n := by
  unfold trailing_high
  rw [List.reverse_replicate, List.takeWhile_replicate]
  simp

theorem run_endstop_snoc (rs : List Int) (r : Int) (s : Controller) :
    run_endstop (rs ++ [r]) s = handle_endstop r (run_endstop rs s) := by
  simp [run_endstop, List.foldl_append]

/-- While the run of `HIGH` readings that ends `rs` is short enough to be counted in an
`int`, the counter is its length. -/
theorem run_endstop_counter (rs : List Int) (s : Controller)
    (h0 : s.g_endstop_value_trig_times = 0) (hb : trailing_high rs < 2 ^ 31) :
    (run_endstop rs s).g_endstop_value_trig_times = (trailing_high rs : Int) := by
  induction rs using List.reverseRecOn with
  | nil => simpa [run_endstop, trailing_high] using h0
  | append_singleton rs r ih =>
    rw [run_endstop_snoc, handle_endstop_counter, trailing_high_snoc]
    rw [trailing_high_snoc] at hb
    by_cases hr : r = HIGH
    · simp only [hr, if_true] at hb ⊢
      rw [ih (by omega)]
      have hb' : ((trailing_high rs : Int)) + 1 < 2 ^ 31 := by exact_mod_cast hb
      rw [wrap_int32_of_int32 ⟨by omega, hb'⟩]
      push_cast
      rfl
    · simp [hr]

theorem confirmed_in_cycle_eq (r : Int) (s : Controller) :
    confirmed_in_cycle r s =
      decide (r = HIGH ∧ wrap_int32 (s.g_endstop_value_trig_times + 1) > 10) := by
  rw [Bool.eq_iff_iff, confirmed_in_cycle_iff, decide_eq_true_iff]

theorem takeWhile_length_ge_iff (p : Int → Bool) (l : List Int) :
    ∀ k : Nat, k ≤ (l.takeWhile p).length ↔ k ≤ l.length ∧ ∀ x ∈ l.take k, p x = true := by
  induction l with
  | nil => intro k; simp
  | cons a l ih =>
    intro k
    cases k with
    | zero => simp
    | succ k =>
      by_cases ha : p a = true
      · simp [List.takeWhile_cons, ha, ih k]
      · simp [List.takeWhile_cons, ha]

theorem trailing_high_ge_iff (l : List Int) (k : Nat) :
    k ≤ trailing_high l ↔ k ≤ l.length ∧ ∀ x ∈ l.reverse.take k, x = HIGH := by
  unfold trailing_high
  rw [takeWhile_length_ge_iff]
  simp

/-- C8 (as stated, refuted): from the initial controller, after 2147483647 `HIGH`
readings the counter is 2147483647; the next `HIGH` reading and the 10 before it are all
`HIGH`, yet that cycle does not confirm the end-stop, and after it the counter is
-2147483648 while the run of `HIGH` readings has length 2147483648. -/
theorem endstop_counter_wraps :
    (run_endstop (List.replicate 2147483647 HIGH)
      (Controller.initial 0)).g_endstop_value_trig_times = 2147483647 ∧
    (11 ≤ (List.replicate 2147483647 HIGH ++ [HIGH]).length ∧
      ∀ x ∈ (List.replicate 2147483647 HIGH ++ [HIGH]).reverse.take 11, x = HIGH) ∧
    confirmed_in_cycle HIGH
      (run_endstop (List.replicate 2147483647 HIGH) (Controller.initial 0)) = false ∧
    (run_endstop (List.replicate 2147483647 HIGH ++ [HIGH])
      (Controller.initial 0)).g_endstop_value_trig_times = -2147483648 ∧
    trailing_high (List.replicate 2147483647 HIGH ++ [HIGH]) = 2147483648 := by
  have hc : (run_endstop (List.replicate 2147483647 HIGH)
      (Controller.initial 0)).g_endstop_value_trig_times = 2147483647 := by
    have h := run_endstop_counter (List.replicate 2147483647 HIGH) (Controller.initial 0) rfl
      (by rw [trailing_high_replicate]; norm_num)
    rw [trailing_high_replicate] at h
    exact h
  have hw : wrap_int32 (2147483647 + 1) = -2147483648 := by decide
  refine ⟨hc, ⟨?_, ?_⟩, ?_, ?_, ?_⟩
  · rw [List.length_append, List.length_replicate]
    decide
  · intro x hx
    have hx' := List.mem_reverse.mp (List.mem_of_mem_take hx)
    rcases List.mem_append.mp hx' with h | h
    · exact List.eq_of_mem_replicate h
    · exact List.mem_singleton.mp h
  · rw [confirmed_in_cycle_eq, hc, hw]
    decide
  · rw [run_endstop_snoc, handle_endstop_counter, hc, hw]
    rfl
  · rw [trailing_high_snoc, trailing_high_replicate]
    rfl

/-- C8 (amended): starting from a counter of 0, after `handle_endstop` has run on the
readings `rs` the counter is the length of the run of `HIGH` readings that ends `rs` (0
after any other reading), as long as that length is below 2^31 and so fits an `int`; and
the cycle reading `r` next confirms the end-stop exactly when `r` and the 10 readings
before it are all `HIGH`, as long as the run counted with `r` is still below 2^31. Ten
`HIGH`, one `LOW`, ten `HIGH` never confirm, and a run of `HIGH` readings confirms first
on its 11th reading. -/
theorem endstop_debounce (s : Controller) (h0 : s.g_endstop_value_trig_times = 0) :
    (∀ rs : List Int, trailing_high rs < 2 ^ 31 →
      (run_endstop rs s).g_endstop_value_trig_times = (trailing_high rs : Int)) ∧
    (∀ (rs : List Int) (r : Int), trailing_high rs + 1 < 2 ^ 31 →
      (confirmed_in_cycle r (run_endstop rs s) = true ↔
        11 ≤ (rs ++ [r]).length ∧ ∀ x ∈ (rs ++ [r]).reverse.take 11, x = HIGH)) ∧
    endstop_trace (List.replicate 10 HIGH ++ [LOW] ++ List.replicate 10 HIGH) s =
      List.replicate 21 false ∧
    endstop_trace (List.replicate 11 HIGH) s = List.replicate 10 false ++ [true] := by
  refine ⟨fun rs hb => run_endstop_counter rs s h0 hb, fun rs r hb => ?_, ?_, ?_⟩
  · have hb' : ((trailing_high rs : Int)) + 1 < 2 ^ 31 := by exact_mod_cast hb
    rw [confirmed_in_cycle_iff, run_endstop_counter rs s h0 (by omega),
      wrap_int32_of_int32 ⟨by omega, hb'⟩, ← trailing_high_ge_iff, trailing_high_snoc]
    by_cases hr : r = HIGH
    · simp only [hr, if_true, true_and]
      omega
    · simp [hr]
  · simp [List.replicate, endstop_trace, confirmed_in_cycle_eq, handle_endstop_counter, h0,
      HIGH, LOW, wrap_int32]
  · simp [List.replicate, endstop_trace, confirmed_in_cycle_eq, handle_endstop_counter, h0,
      HIGH, wrap_int32]

/-- C8 (amended), from the initial controller: the counter after `HIGH, HIGH, LOW, HIGH`
is 1. -/
theorem endstop_debounce_witness :
    (run_endstop [HIGH, HIGH, LOW, HIGH] (Controller.initial 0)).g_endstop_value_trig_times
      = 1 :=
  ((endstop_debounce (Controller.initial 0) (by decide)).1 [HIGH, HIGH, LOW, HIGH]
    (by decide)).trans (by decide)

theorem handle_endstop_down_high (s : Controller) (hd : s.g_system_state = DOWN) :
    handle_endstop HIGH s =
      if wrap_int32 (s.g_endstop_value_trig_times + 1) > 10 then
        { s with g_endstop_value_trig_times := wrap_int32 (s.g_endstop_value_trig_times + 1),
                 motor_speed := 0, g_custom_height := -1, g_system_state := HOLD,
                 g_opto_position := 0 }
      else
        { s with
          g_endstop_value_trig_times := wrap_int32 (s.g_endstop_value_trig_times + 1) } := by
  by_cases hk : wrap_int32 (s.g_endstop_value_trig_times + 1) > 10 <;>
    simp [handle_endstop, count_endstop_reading, endstop_confirmed,
      stop_motor_reset_position, stop_table, hd, hk]

theorem run_endstop_down_high (k : Nat) :
    ∀ s : Controller, s.g_system_state = DOWN → 0 ≤ s.g_endstop_value_trig_times →
      s.g_endstop_value_trig_times + k ≤ 10 →
      run_endstop (List.replicate k HIGH) s =
        { s with g_endstop_value_trig_times := s.g_endstop_value_trig_times + k } := by
  induction k with
  | zero => intro s _ _ _; simp [run_endstop]
  | succ k ih =>
    intro s hd hnn hk
    push_cast at hk
    have hw : wrap_int32 (s.g_endstop_value_trig_times + 1) =
        s.g_endstop_value_trig_times + 1 := wrap_int32_of_int32 ⟨by omega, by omega⟩
    have h1 : ¬ wrap_int32 (s.g_endstop_value_trig_times + 1) > 10 := by rw [hw]; omega
    have hstep : run_endstop (List.replicate (k + 1) HIGH) s =
        run_endstop (List.replicate k HIGH) (handle_endstop HIGH s) := rfl
    rw [hstep, handle_endstop_down_high s hd, if_neg h1, hw,
      ih { s with g_endstop_value_trig_times := s.g_endstop_value_trig_times + 1 } hd
        (by show 0 ≤ s.g_endstop_value_trig_times + 1; omega)
        (by show s.g_endstop_value_trig_times + 1 + (k : Int) ≤ 10; omega)]
    simp only [Nat.cast_add, Nat.cast_one]
    congr 1
    ring

/-- C9: when a cycle of `handle_endstop` confirms the end-stop and the state is `DOWN` or
`CALIBRATING`, it ends with position 0, state `HOLD`, no target and motor speed 0; in every
other case position, state and target are as before. In state `DOWN` with the counter at 0
and the end-stop `HIGH` in every cycle, the first 10 cycles change neither position nor
state, and the 11th resets the position to 0 and sets the state to `HOLD`, where both
remain in the 12th. -/
theorem handle_endstop_effect (r : Int) (s : Controller) :
    (confirmed_in_cycle r s = true →
      s.g_system_state = DOWN ∨ s.g_system_state = CALIBRATING →
      (handle_endstop r s).g_opto_position = 0 ∧
      (handle_endstop r s).g_system_state = HOLD ∧
      (handle_endstop r s).g_custom_height = -1 ∧
      (handle_endstop r s).motor_speed = 0) ∧
    (¬ (confirmed_in_cycle r s = true ∧
        (s.g_system_state = DOWN ∨ s.g_system_state = CALIBRATING)) →
      (handle_endstop r s).g_opto_position = s.g_opto_position ∧
      (handle_endstop r s).g_system_state = s.g_system_state ∧
      (handle_endstop r s).g_custom_height = s.g_custom_height) ∧
    (s.g_system_state = DOWN → s.g_endstop_value_trig_times = 0 →
      (∀ k : Nat, k ≤ 10 →
        (run_endstop (List.replicate k HIGH) s).g_opto_position = s.g_opto_position ∧
        (run_endstop (List.replicate k HIGH) s).g_system_state = DOWN) ∧
      (run_endstop (List.replicate 11 HIGH) s).g_opto_position = 0 ∧
      (run_endstop (List.replicate 11 HIGH) s).g_system_state = HOLD ∧
      (run_endstop (List.replicate 12 HIGH) s).g_opto_position = 0 ∧
      (run_endstop (List.replicate 12 HIGH) s).g_system_state = HOLD) := by
  refine ⟨fun hc hs => ?_, fun hn => ?_, fun hd h0 => ?_⟩
  · rw [confirmed_in_cycle_iff] at hc
    obtain ⟨hr, hk⟩ := hc
    rcases hs with hs | hs <;>
      simp [handle_endstop, count_endstop_reading, endstop_confirmed,
        stop_motor_reset_position, stop_table, hr, hk, hs]
  · rw [confirmed_in_cycle_iff] at hn
    by_cases hc : r = HIGH ∧ 10 < wrap_int32 (s.g_endstop_value_trig_times + 1)
    · have hs1 : s.g_system_state ≠ DOWN := fun h => hn ⟨hc, Or.inl h⟩
      have hs2 : s.g_system_state ≠ CALIBRATING := fun h => hn ⟨hc, Or.inr h⟩
      simp [handle_endstop, count_endstop_reading, endstop_confirmed, hc.1, hc.2, hs1, hs2]
    · by_cases hr : r = HIGH
      · have hk : ¬ 10 < wrap_int32 (s.g_endstop_value_trig_times + 1) :=
          fun h => hc ⟨hr, h⟩
        by_cases hcal : s.g_system_state = CALIBRATING <;>
          simp [handle_endstop, count_endstop_reading, endstop_confirmed, hr, hk, hcal]
      · by_cases hcal : s.g_system_state = CALIBRATING <;>
          simp [handle_endstop, count_endstop_reading, endstop_confirmed, hr, hcal]
  · have h10 := run_endstop_down_high 10 s hd (by rw [h0]) (by rw [h0]; decide)
    have h11 : run_endstop (List.replicate 11 HIGH) s =
        handle_endstop HIGH (run_endstop (List.replicate 10 HIGH) s) := by
      rw [← run_endstop_snoc]; rfl
    have h12 : run_endstop (List.replicate 12 HIGH) s =
        handle_endstop HIGH (run_endstop (List.replicate 11 HIGH) s) := by
      rw [← run_endstop_snoc]; rfl
    have e11 : run_endstop (List.replicate 11 HIGH) s =
        { s with g_endstop_value_trig_times := 11, motor_speed := 0, g_custom_height := -1,
                 g_system_state := HOLD, g_opto_position := 0 } := by
      rw [h11, h10, handle_endstop_down_high
        { s with g_endstop_value_trig_times := s.g_endstop_value_trig_times + (10 : Nat) } hd]
      simp [h0, wrap_int32]
    have e12 : run_endstop (List.replicate 12 HIGH) s =
        { s with g_endstop_value_trig_times := 12, motor_speed := 0, g_custom_height := -1,
                 g_system_state := HOLD, g_opto_position := 0 } := by
      rw [h12, e11]
      simp [handle_endstop, count_endstop_reading, endstop_confirmed, wrap_int32]
    refine ⟨fun k hk => ?_, ?_, ?_, ?_, ?_⟩
    · rw [run_endstop_down_high k s hd (by rw [h0]) (by rw [h0]; omega)]
      exact ⟨rfl, hd⟩
    · rw [e11]
    · rw [e11]
    · rw [e12]
    · rw [e12]

/-- C9, going down at position 9 (height 71) with the counter at 0: the 11th `HIGH`
reading resets the position to 0. -/
theorem handle_endstop_effect_witness :
    (run_endstop (List.replicate 11 HIGH)
      { Controller.atRest with g_system_state := DOWN, g_opto_position := 9 }).g_opto_position
      = 0 :=
  ((handle_endstop_effect HIGH
    { Controller.atRest with g_system_state := DOWN, g_opto_position := 9 }).2.2
      (by decide) (by decide)).2.1

/-! ## Stall guard -/

theorem usub32_of_le {a b : Nat} (ha : a < 2 ^ 32) (hb : b ≤ a) : usub32 a b = a - b := by
  unfold usub32
  have h32 : (2 : Nat) ^ 32 = 4294967296 := by norm_num
  rw [h32] at ha ⊢
  omega

/-- C10: with a clock value `now` not before either time stamp, `motor_stuck_protection`
in state `HOLD` sets `g_last_on_hold_time` to `now` and changes nothing else; in any other
state it sets the state to `HOLD`, and changes nothing else, exactly when both
`now - g_last_opto_change_time > 500` and `now - g_last_on_hold_time > 500`, and otherwise
changes nothing. -/
theorem motor_stuck_protection_spec (s : Controller) (now : Nat) (hnow : now < 2 ^ 32)
    (hc : s.g_last_opto_change_time ≤ now) (hh : s.g_last_on_hold_time ≤ now) :
    (s.g_system_state = HOLD →
      motor_stuck_protection now s = { s with g_last_on_hold_time := now }) ∧
    (s.g_system_state ≠ HOLD →
      ((motor_stuck_protection now s).g_system_state = HOLD ↔
        now - s.g_last_opto_change_time > 500 ∧ now - s.g_last_on_hold_time > 500) ∧
      (now - s.g_last_opto_change_time > 500 ∧ now - s.g_last_on_hold_time > 500 →
        motor_stuck_protection now s = { s with g_system_state := HOLD }) ∧
      (¬ (now - s.g_last_opto_change_time > 500 ∧ now - s.g_last_on_hold_time > 500) →
        motor_stuck_protection now s = s)) := by
  have hstall : opto_sensor_not_changing_when_motor_on now s = true ↔
      now - s.g_last_opto_change_time > 500 ∧ now - s.g_last_on_hold_time > 500 := by
    simp [opto_sensor_not_changing_when_motor_on, usub32_of_le hnow hc, usub32_of_le hnow hh]
  refine ⟨fun hs => ?_, fun hs => ?_⟩
  · simp [motor_stuck_protection, hs]
  · have hfire : now - s.g_last_opto_change_time > 500 ∧ now - s.g_last_on_hold_time > 500 →
        motor_stuck_protection now s = { s with g_system_state := HOLD } := by
      intro hb
      simp only [motor_stuck_protection, hs, if_false, hstall.mpr hb, if_true]
    have hidle : ¬ (now - s.g_last_opto_change_time > 500 ∧
        now - s.g_last_on_hold_time > 500) → motor_stuck_protection now s = s := by
      intro hb
      have hb' : ¬ opto_sensor_not_changing_when_motor_on now s = true := fun h => hb (hstall.mp h)
      simp [motor_stuck_protection, hs, hb']
    refine ⟨⟨fun hhold => ?_, fun hb => ?_⟩, hfire, hidle⟩
    · by_contra hb
      rw [hidle hb] at hhold
      exact hs hhold
    · rw [hfire hb]

/-- C10, in state `UP` with both time stamps 600 ms old: the state is forced to `HOLD`. -/
theorem motor_stuck_protection_spec_witness :
    motor_stuck_protection 1600
        { Controller.atRest with g_system_state := UP, g_last_opto_change_time := 1000,
                                 g_last_on_hold_time := 1000 } =
      { Controller.atRest with g_system_state := HOLD, g_last_opto_change_time := 1000,
                               g_last_on_hold_time := 1000 } :=
  ((motor_stuck_protection_spec
    { Controller.atRest with g_system_state := UP, g_last_opto_change_time := 1000,
                             g_last_on_hold_time := 1000 } 1600
    (by decide) (by decide) (by decide)).2 (by decide)).2.1 (by decide)

/-! ## Height -/

/-- C6 (as stated, refuted): at position -609 the sum is about -0.035 and its conversion
to `int` gives 0, while `floor(23 * (-609) / 200) + 70` is -1; at position -200 the
quotient by the `float` constant is just below -23, so the code gives 46 where the formula
gives 47. -/
theorem get_current_height_not_floor :
    get_current_height { Controller.atRest with g_opto_position := -609 } = 0 ∧
    ⌊(23 * ((-609 : ℤ) : ℚ)) / 200⌋ + 70 = -1 ∧
    get_current_height { Controller.atRest with g_opto_position := -609 } ≠
      ⌊(23 * ((-609 : ℤ) : ℚ)) / 200⌋ + 70 ∧
    get_current_height { Controller.atRest with g_opto_position := -200 } = 46 ∧
    ⌊(23 * ((-200 : ℤ) : ℚ)) / 200⌋ + 70 = 47 ∧
    get_current_height { Controller.atRest with g_opto_position := -200 } ≠
      ⌊(23 * ((-200 : ℤ) : ℚ)) / 200⌋ + 70 := by
  have f1 : ⌊(23 * ((-609 : ℤ) : ℚ)) / 200⌋ = -71 := by
    rw [Int.floor_eq_iff]; norm_num
  have f2 : ⌊(23 * ((-200 : ℤ) : ℚ)) / 200⌋ = -23 := by
    rw [Int.floor_eq_iff]; norm_num
  rw [f1, f2]
  refine ⟨by decide, rfl, by decide, by decide, rfl, by decide⟩

/-- C6 (amended): for a position `p` with `-199 ≤ p ≤ 1000000`, which includes the whole
travel 0..435, `get_current_height` is `floor(23 * p / 200) + 70`; position 0 gives 70; the
result depends on the position only. -/
theorem get_current_height_formula (s : Controller)
    (hlo : -199 ≤ s.g_opto_position) (hhi : s.g_opto_position ≤ 1000000) :
    get_current_height s = ⌊(23 * (s.g_opto_position : ℚ)) / 200⌋ + 70 ∧
    get_current_height { s with g_opto_position := 0 } = 70 ∧
    (∀ t : Controller, t.g_opto_position = s.g_opto_position →
      get_current_height t = get_current_height s) := by
  refine ⟨height_of_position_formula _ hlo hhi, ?_, fun t ht => ?_⟩
  · show height_of_position 0 = 70
    decide
  unfold get_current_height
  rw [ht]

/-- C6 (amended), at position 435, the top of the travel: the height is
`floor(23 * 435 / 200) + 70`. -/
theorem get_current_height_formula_witness :
    get_current_height { Controller.atRest with g_opto_position := 435 } =
      ⌊(23 * ((435 : ℤ) : ℚ)) / 200⌋ + 70 :=
  (get_current_height_formula { Controller.atRest with g_opto_position := 435 }
    (by decide) (by decide)).1

/-- C7: `get_current_height` is monotone in the position: a controller at a position
`p ≤ q` reports a height that is at most the height reported at `q`. -/
theorem get_current_height_monotone (s t : Controller)
    (h : s.g_opto_position ≤ t.g_opto_position) :
    get_current_height s ≤ get_current_height t :=
  height_of_position_mono h

/-- C7, between the positions -609 and 435. -/
theorem get_current_height_monotone_witness :
    get_current_height { Controller.atRest with g_opto_position := -609 } ≤
      get_current_height { Controller.atRest with g_opto_position := 435 } :=
  get_current_height_monotone _ _ (by decide)

/-! ## Output -/

theorem custom_height_reached_iff (s : Controller) :
    custom_height_reached s = true ↔
      s.g_custom_height ≠ -1 ∧ s.g_custom_height = get_current_height s := by
  simp [custom_height_reached]

theorem handle_output_of_reached (s : Controller) (h : custom_height_reached s = true) :
    handle_output s = { s with motor_speed := 0, g_custom_height := -1, g_system_state := HOLD } := by
  simp [handle_output, h, stop_table]

theorem handle_output_of_not_reached (s : Controller) (h : custom_height_reached s = false) :
    handle_output s =
      match s.g_system_state with
      | UP => raise_table s
      | DOWN => lower_table s
      | HOLD => stop_table s
      | CALIBRATING => s := by
  simp [handle_output, h]

/-- After `handle_output` the state is `HOLD` only through `stop_table`: the target is
cleared and the motor stopped. -/
theorem handle_output_hold (s : Controller) (h : (handle_output s).g_system_state = HOLD) :
    (handle_output s).g_custom_height = -1 ∧ (handle_output s).motor_speed = 0 := by
  cases hr : custom_height_reached s
  · rw [handle_output_of_not_reached s hr] at h ⊢
    cases hs : s.g_system_state <;> simp only [hs] at h ⊢
    · exact absurd h (by decide)
    · unfold raise_table at h ⊢
      split_ifs at h ⊢ with hc
      · have h' : s.g_system_state = HOLD := h
        rw [hs] at h'
        exact absurd h' (by decide)
      · exact ⟨rfl, rfl⟩
    · unfold lower_table at h ⊢
      split_ifs at h ⊢ with hc
      · have h' : s.g_system_state = HOLD := h
        rw [hs] at h'
        exact absurd h' (by decide)
      · exact ⟨rfl, rfl⟩
    · exact ⟨rfl, rfl⟩
  · rw [handle_output_of_reached s hr]
    exact ⟨rfl, rfl⟩

/-- C12: when a target is set and equals the current height, `handle_output` ends with
state `HOLD`, the target cleared and motor speed 0, whatever the state was, and changes
nothing else; when no target is set or the target differs from the current height, the
test at the head of `handle_output` changes nothing and the function dispatches on the
state it was called in. -/
theorem handle_output_target_reached (s : Controller) :
    (s.g_custom_height ≠ -1 → get_current_height s = s.g_custom_height →
      handle_output s =
        { s with motor_speed := 0, g_custom_height := -1, g_system_state := HOLD }) ∧
    (s.g_custom_height = -1 ∨ get_current_height s ≠ s.g_custom_height →
      handle_output s =
        match s.g_system_state with
        | UP => raise_table s
        | DOWN => lower_table s
        | HOLD => stop_table s
        | CALIBRATING => s) := by
  refine ⟨fun h1 h2 => ?_, fun h => ?_⟩
  · exact handle_output_of_reached s ((custom_height_reached_iff s).mpr ⟨h1, h2.symm⟩)
  · apply handle_output_of_not_reached
    rw [← Bool.not_eq_true, custom_height_reached_iff]
    rintro ⟨h1, h2⟩
    rcases h with h | h
    · exact h1 h
    · exact h h2.symm

/-- C12, going down at position 174 (height 90) with the target 90: the table is put on
hold. -/
theorem handle_output_target_reached_witness :
    handle_output
        { Controller.atRest with g_system_state := DOWN, g_opto_position := 174,
                                 g_custom_height := 90, motor_speed := -255 } =
      { Controller.atRest with g_system_state := HOLD, g_opto_position := 174,
                               g_custom_height := -1, motor_speed := 0 } :=
  (handle_output_target_reached
    { Controller.atRest with g_system_state := DOWN, g_opto_position := 174,
                             g_custom_height := 90, motor_speed := -255 }).1
    (by decide) (by decide)

theorem height_of_position_int32 (p : Int) (hp : is_int32 p) :
    -246960554 ≤ height_of_position p ∧ height_of_position p ≤ 246960694 := by
  obtain ⟨h1, h2⟩ := hp
  have e1 : height_of_position (-(2 ^ 31)) = -246960554 := by decide
  have e2 : height_of_position (2 ^ 31 - 1) = 246960694 := by decide
  constructor
  · rw [← e1]; exact height_of_position_mono h1
  · rw [← e2]; exact height_of_position_mono (by omega)

/-- For a height in the `int` range, the unsigned test `height < MAX_HEIGHT` of
`raise_table` holds exactly for `0 ≤ height < 120`. -/
theorem toUnsigned_lt_max_iff (x : Int) (hx : is_int32 x) :
    toUnsigned x < MAX_HEIGHT ↔ 0 ≤ x ∧ x < 120 := by
  obtain ⟨h1, h2⟩ := hx
  have hcast : toUnsigned x < MAX_HEIGHT ↔ (toUnsigned x : Int) < 120 := by
    simp [MAX_HEIGHT]
  rw [hcast]
  by_cases hneg : x < 0
  · rw [toUnsigned_of_neg h1 hneg]; omega
  · rw [toUnsigned_of_nonneg (not_lt.mp hneg) (by omega)]; omega

/-- For a height in the `int` range, the unsigned test `height >= MIN_HEIGHT` of
`lower_table` holds exactly for `height < 0` or `70 ≤ height`. -/
theorem toUnsigned_ge_min_iff (x : Int) (hx : is_int32 x) :
    toUnsigned x ≥ MIN_HEIGHT ↔ x < 0 ∨ 70 ≤ x := by
  obtain ⟨h1, h2⟩ := hx
  have hcast : toUnsigned x ≥ MIN_HEIGHT ↔ (70 : Int) ≤ (toUnsigned x : Int) := by
    simp [MIN_HEIGHT]
  rw [hcast]
  by_cases hneg : x < 0
  · rw [toUnsigned_of_neg h1 hneg]; omega
  · rw [toUnsigned_of_nonneg (not_lt.mp hneg) (by omega)]; omega

/-- C13 (what the code does): going up at position -1000, where the height is -45, with
no target: the test `get_current_height() < MAX_HEIGHT` converts -45 to `unsigned`, fails,
and `handle_output` stops the table (state `HOLD`, motor speed 0) instead of raising it. -/
theorem handle_output_up_below_zero :
    get_current_height { Controller.atRest with g_system_state := UP, g_opto_position := -1000 }
      = -45 ∧
    custom_height_reached
      { Controller.atRest with g_system_state := UP, g_opto_position := -1000 } = false ∧
    handle_output { Controller.atRest with g_system_state := UP, g_opto_position := -1000 } =
      { Controller.atRest with g_system_state := HOLD, g_opto_position := -1000,
                               g_custom_height := -1, motor_speed := 0 } := by
  refine ⟨by decide, by decide, by decide⟩

/-- C14 (what the code does): going down at position -1000, where the height is -45, with
no target: the test `get_current_height() >= MIN_HEIGHT` converts -45 to `unsigned`,
holds, and `handle_output` keeps lowering (motor speed -255, state `DOWN`) instead of
stopping the table. -/
theorem handle_output_down_below_zero :
    get_current_height
      { Controller.atRest with g_system_state := DOWN, g_opto_position := -1000 } = -45 ∧
    custom_height_reached
      { Controller.atRest with g_system_state := DOWN, g_opto_position := -1000 } = false ∧
    handle_output { Controller.atRest with g_system_state := DOWN, g_opto_position := -1000 } =
      { Controller.atRest with g_system_state := DOWN, g_opto_position := -1000,
                               motor_speed := -255 } := by
  refine ⟨by decide, by decide, by decide⟩

/-! ## Calibration drive and stall -/

/-- C17 (as stated, refuted): at startup with the end-stop already `HIGH`, the first call
of `handle_endstop` does not confirm the end-stop (counter 1), stays in `CALIBRATING`, and
leaves the motor speed at the 0 set by `setup` instead of -255. -/
theorem handle_endstop_high_keeps_speed :
    confirmed_in_cycle HIGH (Controller.initial 0) = false ∧
    (handle_endstop HIGH (Controller.initial 0)).g_system_state = CALIBRATING ∧
    (handle_endstop HIGH (Controller.initial 0)).motor_speed = 0 ∧
    (handle_endstop HIGH (Controller.initial 0)).motor_speed ≠ -MOTOR_SPEED := by
  refine ⟨by decide, by decide, by decide, by decide⟩

/-- C17 (amended): in state `CALIBRATING`, a call of `handle_endstop` with a reading other
than `HIGH` sets the motor speed to `-MOTOR_SPEED` whatever it was; with a `HIGH` reading
that does not confirm the end-stop (the counter after the increment is at most 10) it
leaves the motor speed as it was; in both cases state and position are unchanged. When the
end-stop is confirmed the call ends with state `HOLD`, position 0 and motor speed 0. -/
theorem handle_endstop_calibrating (r : Int) (s : Controller)
    (hs : s.g_system_state = CALIBRATING) :
    (r ≠ HIGH →
      handle_endstop r s =
        { s with g_endstop_value_trig_times := 0, motor_speed := -MOTOR_SPEED }) ∧
    (r = HIGH → wrap_int32 (s.g_endstop_value_trig_times + 1) ≤ 10 →
      handle_endstop r s =
        { s with
          g_endstop_value_trig_times := wrap_int32 (s.g_endstop_value_trig_times + 1) }) ∧
    (confirmed_in_cycle r s = true →
      (handle_endstop r s).g_system_state = HOLD ∧
      (handle_endstop r s).g_opto_position = 0 ∧
      (handle_endstop r s).motor_speed = 0) := by
  refine ⟨fun hr => ?_, fun hr hk => ?_, fun hc => ?_⟩
  · simp [handle_endstop, count_endstop_reading, endstop_confirmed, hr, hs]
  · have hk' : ¬ 10 < wrap_int32 (s.g_endstop_value_trig_times + 1) := not_lt.mpr hk
    simp [handle_endstop, count_endstop_reading, endstop_confirmed, hr, hs, hk']
  · rw [confirmed_in_cycle_iff] at hc
    obtain ⟨hr, hk⟩ := hc
    simp [handle_endstop, count_endstop_reading, endstop_confirmed,
      stop_motor_reset_position, stop_table, hr, hk, hs]

/-- C17 (amended), at startup with the end-stop `LOW`: the motor is driven down at -255. -/
theorem handle_endstop_calibrating_witness :
    handle_endstop LOW (Controller.initial 0) =
      { Controller.initial 0 with g_endstop_value_trig_times := 0, motor_speed := -255 } :=
  (handle_endstop_calibrating LOW (Controller.initial 0) (by decide)).1 (by decide)

/-- C16 (as stated, refuted): going up to the target 90 with both time stamps 600 ms old,
`motor_stuck_protection` forces the state to `HOLD` and leaves the target at 90; a whole
pass of `loop` from that state, with no request and no sensor edge, likewise ends in
state `HOLD` with the target still 90. -/
theorem motor_stuck_protection_keeps_target :
    (motor_stuck_protection 1600
      { Controller.atRest with g_system_state := UP, g_custom_height := 90,
                               motor_speed := 255, g_last_opto_change_time := 1000,
                               g_last_on_hold_time := 1000 }).g_system_state = HOLD ∧
    (motor_stuck_protection 1600
      { Controller.atRest with g_system_state := UP, g_custom_height := 90,
                               motor_speed := 255, g_last_opto_change_time := 1000,
                               g_last_on_hold_time := 1000 }).g_custom_height = 90 ∧
    (loop { endstop := LOW, requests := [], opto := 1, now_track := 1600, now_stuck := 1600 }
      { Controller.atRest with g_system_state := UP, g_custom_height := 90,
                               motor_speed := 255, g_opto_state := 1,
                               g_last_opto_change_time := 1000,
                               g_last_on_hold_time := 1000 }).g_system_state = HOLD ∧
    (loop { endstop := LOW, requests := [], opto := 1, now_track := 1600, now_stuck := 1600 }
      { Controller.atRest with g_system_state := UP, g_custom_height := 90,
                               motor_speed := 255, g_opto_state := 1,
                               g_last_opto_change_time := 1000,
                               g_last_on_hold_time := 1000 }).g_custom_height = 90 := by
  refine ⟨by decide, by decide, by decide, by decide⟩

theorem track_position_frame (r : Int) (now : Nat) (s : Controller) :
    (track_position r now s).g_system_state = s.g_system_state ∧
    (track_position r now s).g_custom_height = s.g_custom_height ∧
    (track_position r now s).motor_speed = s.motor_speed := by
  by_cases h1 : s.g_opto_state = r <;> by_cases h2 : s.g_system_state = UP <;>
    simp [track_position, h1, h2]

theorem motor_stuck_protection_frame (now : Nat) (s : Controller) :
    ((motor_stuck_protection now s).g_system_state = s.g_system_state ∨
      (motor_stuck_protection now s).g_system_state = HOLD) ∧
    (motor_stuck_protection now s).g_custom_height = s.g_custom_height ∧
    (motor_stuck_protection now s).motor_speed = s.motor_speed ∧
    (motor_stuck_protection now s).g_opto_position = s.g_opto_position := by
  by_cases h1 : s.g_system_state = HOLD <;>
    by_cases h2 : opto_sensor_not_changing_when_motor_on now s = true <;>
    simp [motor_stuck_protection, h1, h2]

theorem motor_stuck_protection_of_hold (now : Nat) (s : Controller)
    (h : s.g_system_state = HOLD) :
    (motor_stuck_protection now s).g_system_state = HOLD := by
  simp [motor_stuck_protection, h]

theorem handle_endstop_of_hold (r : Int) (s : Controller) (h : s.g_system_state = HOLD) :
    (handle_endstop r s).g_system_state = HOLD := by
  by_cases hr : r = HIGH <;>
    simp [handle_endstop, count_endstop_reading, endstop_confirmed, hr, h]

/-- C16 (amended): when the stall guard fires, `motor_stuck_protection` sets the state to
`HOLD` and changes nothing else, so the target stays as it was. The target is cleared by
`handle_output`: whenever `handle_output` ends in state `HOLD` the target is unset and the
motor speed is 0, and a pass of `loop` that starts in state `HOLD` and serves no request
ends in state `HOLD` with the target unset and the motor speed 0. -/
theorem stall_target_cleared_by_output (s : Controller) :
    (∀ now : Nat, s.g_system_state ≠ HOLD →
      opto_sensor_not_changing_when_motor_on now s = true →
      motor_stuck_protection now s = { s with g_system_state := HOLD }) ∧
    ((handle_output s).g_system_state = HOLD →
      (handle_output s).g_custom_height = -1 ∧ (handle_output s).motor_speed = 0) ∧
    (∀ i : CycleInput, s.g_system_state = HOLD → i.requests = [] →
      (loop i s).g_system_state = HOLD ∧ (loop i s).g_custom_height = -1 ∧
      (loop i s).motor_speed = 0) := by
  refine ⟨fun now hs hf => ?_, handle_output_hold s, fun i hs hr => ?_⟩
  · simp [motor_stuck_protection, hs, hf]
  · have h1 := handle_endstop_of_hold i.endstop s hs
    have hne : (handle_endstop i.endstop s).g_system_state ≠ CALIBRATING := by
      rw [h1]; decide
    have hout : handle_output (handle_endstop i.endstop s) =
        stop_table (handle_endstop i.endstop s) := by
      cases hc : custom_height_reached (handle_endstop i.endstop s)
      · rw [handle_output_of_not_reached _ hc, h1]
      · rw [handle_output_of_reached _ hc]; rfl
    have hloop : loop i s = motor_stuck_protection i.now_stuck
        (track_position i.opto i.now_track (stop_table (handle_endstop i.endstop s))) := by
      simp only [loop, hne, ne_eq, not_false_eq_true, if_true, hr, handle_client,
        List.foldl_nil, hout]
    obtain ⟨t1, t2, t3⟩ := track_position_frame i.opto i.now_track
      (stop_table (handle_endstop i.endstop s))
    obtain ⟨_, m2, m3, _⟩ := motor_stuck_protection_frame i.now_stuck
      (track_position i.opto i.now_track (stop_table (handle_endstop i.endstop s)))
    rw [hloop]
    refine ⟨motor_stuck_protection_of_hold _ _ (by rw [t1]; rfl), ?_, ?_⟩
    · rw [m2, t2]; rfl
    · rw [m3, t3]; rfl

/-- C16 (amended), for the state left by a stall on the way up to 90: the next pass of
`loop`, with no request, ends with the target unset. -/
theorem stall_target_cleared_by_output_witness :
    (loop { endstop := LOW, requests := [], opto := 1, now_track := 1601, now_stuck := 1601 }
      { Controller.atRest with g_system_state := HOLD, g_custom_height := 90,
                               motor_speed := 255 }).g_custom_height = -1 :=
  ((stall_target_cleared_by_output
    { Controller.atRest with g_system_state := HOLD, g_custom_height := 90,
                             motor_speed := 255 }).2.2
    { endstop := LOW, requests := [], opto := 1, now_track := 1601, now_stuck := 1601 }
    (by decide) (by decide)).2.1

/-! ## Calibration in the main loop -/

theorem handle_motor_requests_not_calibrating (action : String) (s : Controller)
    (h : s.g_system_state ≠ CALIBRATING) :
    (handle_motor_requests action s).g_system_state ≠ CALIBRATING := by
  by_cases h1 : action = "up" <;> by_cases h2 : action = "stop" <;>
    by_cases h3 : action = "down" <;> simp [handle_motor_requests, h1, h2, h3, h]

theorem handle_height_requests_not_calibrating (height : Int) (s : Controller)
    (h : s.g_system_state ≠ CALIBRATING) :
    (handle_height_requests height s).g_system_state ≠ CALIBRATING := by
  by_cases hc : toUnsigned height ≥ MIN_HEIGHT ∧ toUnsigned height ≤ MAX_HEIGHT <;>
    by_cases h1 : get_current_height s < height <;>
    by_cases h2 : get_current_height s > height <;>
    simp [handle_height_requests, hc, h1, h2, h]

theorem stop_table_not_calibrating (s : Controller) :
    (stop_table s).g_system_state ≠ CALIBRATING := by
  simp [stop_table]

theorem handle_output_not_calibrating (s : Controller) (h : s.g_system_state ≠ CALIBRATING) :
    (handle_output s).g_system_state ≠ CALIBRATING := by
  cases hr : custom_height_reached s
  · rw [handle_output_of_not_reached s hr]
    cases hs : s.g_system_state
    · exact absurd hs h
    · show (raise_table s).g_system_state ≠ CALIBRATING
      unfold raise_table
      split_ifs
      · show s.g_system_state ≠ CALIBRATING
        exact h
      · exact stop_table_not_calibrating s
    · show (lower_table s).g_system_state ≠ CALIBRATING
      unfold lower_table
      split_ifs
      · show s.g_system_state ≠ CALIBRATING
        exact h
      · exact stop_table_not_calibrating s
    · exact stop_table_not_calibrating s
  · rw [handle_output_of_reached s hr]
    simp

theorem handle_endstop_state (r : Int) (s : Controller) :
    (handle_endstop r s).g_system_state = s.g_system_state ∨
      (handle_endstop r s).g_system_state = HOLD := by
  by_cases hr : r = HIGH <;> by_cases hk : 10 < wrap_int32 (s.g_endstop_value_trig_times + 1) <;>
    cases hs : s.g_system_state <;>
    simp [handle_endstop, count_endstop_reading, endstop_confirmed,
      stop_motor_reset_position, stop_table, hr, hk, hs]

theorem handle_endstop_not_calibrating (r : Int) (s : Controller)
    (h : s.g_system_state ≠ CALIBRATING) :
    (handle_endstop r s).g_system_state ≠ CALIBRATING := by
  rcases handle_endstop_state r s with h1 | h1
  · rw [h1]; exact h
  · rw [h1]; decide

theorem motor_stuck_protection_not_calibrating (now : Nat) (s : Controller)
    (h : s.g_system_state ≠ CALIBRATING) :
    (motor_stuck_protection now s).g_system_state ≠ CALIBRATING := by
  rcases (motor_stuck_protection_frame now s).1 with h1 | h1
  · rw [h1]; exact h
  · rw [h1]; decide

theorem Op.apply_not_calibrating (op : Op) (s : Controller)
    (h : s.g_system_state ≠ CALIBRATING) : (op.apply s).g_system_state ≠ CALIBRATING := by
  cases op with
  | motor_request action => exact handle_motor_requests_not_calibrating action s h
  | height_request hh => exact handle_height_requests_not_calibrating hh s h
  | output => exact handle_output_not_calibrating s h
  | endstop r => exact handle_endstop_not_calibrating r s h
  | track r now => show (track_position r now s).g_system_state ≠ CALIBRATING
                   rw [track_position_state]; exact h
  | stuck now => exact motor_stuck_protection_not_calibrating now s h

theorem handle_client_not_calibrating (reqs : List Request) :
    ∀ s : Controller, s.g_system_state ≠ CALIBRATING →
      (handle_client reqs s).g_system_state ≠ CALIBRATING := by
  induction reqs with
  | nil => intro s h; exact h
  | cons req reqs ih =>
    intro s h
    have hstep : handle_client (req :: reqs) s = handle_client reqs (req.handle s) := rfl
    rw [hstep]
    apply ih
    cases req with
    | motor action => exact handle_motor_requests_not_calibrating action s h
    | height hh => exact handle_height_requests_not_calibrating hh s h

theorem loop_not_calibrating (i : CycleInput) (s : Controller)
    (h : s.g_system_state ≠ CALIBRATING) : (loop i s).g_system_state ≠ CALIBRATING := by
  have h1 := handle_endstop_not_calibrating i.endstop s h
  unfold loop
  simp only [h1, ne_eq, not_false_eq_true, if_true]
  apply motor_stuck_protection_not_calibrating
  rw [track_position_state]
  exact handle_output_not_calibrating _ (handle_client_not_calibrating _ _ h1)

theorem run_loop_not_calibrating (inputs : List CycleInput) :
    ∀ s : Controller, s.g_system_state ≠ CALIBRATING →
      (run_loop inputs s).g_system_state ≠ CALIBRATING := by
  induction inputs with
  | nil => intro s h; exact h
  | cons i inputs ih =>
    intro s h
    have hstep : run_loop (i :: inputs) s = run_loop inputs (loop i s) := rfl
    rw [hstep]
    exact ih _ (loop_not_calibrating i s h)

theorem handle_output_position (s : Controller) :
    (handle_output s).g_opto_position = s.g_opto_position := by
  cases hr : custom_height_reached s
  · rw [handle_output_of_not_reached s hr]
    cases hs : s.g_system_state
    · rfl
    · show (raise_table s).g_opto_position = s.g_opto_position
      unfold raise_table
      split_ifs <;> rfl
    · show (lower_table s).g_opto_position = s.g_opto_position
      unfold lower_table
      split_ifs <;> rfl
    · rfl
  · rw [handle_output_of_reached s hr]

theorem handle_motor_requests_position (action : String) (s : Controller) :
    (handle_motor_requests action s).g_opto_position = s.g_opto_position := by
  by_cases h1 : action = "up" <;> by_cases h2 : action = "stop" <;>
    by_cases h3 : action = "down" <;> simp [handle_motor_requests, h1, h2, h3]

theorem handle_height_requests_position (height : Int) (s : Controller) :
    (handle_height_requests height s).g_opto_position = s.g_opto_position := by
  by_cases hc : toUnsigned height ≥ MIN_HEIGHT ∧ toUnsigned height ≤ MAX_HEIGHT <;>
    by_cases h1 : get_current_height s < height <;>
    by_cases h2 : get_current_height s > height <;>
    simp [handle_height_requests, hc, h1, h2]

theorem handle_endstop_position (r : Int) (s : Controller)
    (hs : s.g_system_state ≠ CALIBRATING) :
    (confirmed_in_cycle r s = true ∧ s.g_system_state = DOWN →
      (handle_endstop r s).g_opto_position = 0) ∧
    (¬ (confirmed_in_cycle r s = true ∧ s.g_system_state = DOWN) →
      (handle_endstop r s).g_opto_position = s.g_opto_position) := by
  rw [confirmed_in_cycle_iff]
  constructor
  · rintro ⟨⟨hr, hk⟩, hd⟩
    simp [handle_endstop, count_endstop_reading, endstop_confirmed,
      stop_motor_reset_position, stop_table, hr, hk, hd]
  · intro hn
    by_cases hr : r = HIGH
    · by_cases hk : 10 < wrap_int32 (s.g_endstop_value_trig_times + 1)
      · have hd : s.g_system_state ≠ DOWN := fun h => hn ⟨⟨hr, hk⟩, h⟩
        simp [handle_endstop, count_endstop_reading, endstop_confirmed, hr, hk, hd, hs]
      · simp [handle_endstop, count_endstop_reading, endstop_confirmed, hr, hk, hs]
    · simp [handle_endstop, count_endstop_reading, endstop_confirmed, hr, hs]

/-- C20: calibration is never re-entered. Each function that writes the globals, and so
each pass of `loop` with any requests, takes a state other than `CALIBRATING` to a state
other than `CALIBRATING`. Outside `CALIBRATING`, `handle_endstop` sets the position to 0
when it confirms the end-stop in state `DOWN` and leaves it unchanged otherwise; the
request handlers, `handle_output` and `motor_stuck_protection` never change the position,
and `track_position` changes it by one step of the `int` counter at most. -/
theorem calibration_never_reentered (s : Controller) (hs : s.g_system_state ≠ CALIBRATING) :
    (∀ op : Op, (op.apply s).g_system_state ≠ CALIBRATING) ∧
    (∀ inputs : List CycleInput, (run_loop inputs s).g_system_state ≠ CALIBRATING) ∧
    (∀ r : Int,
      (confirmed_in_cycle r s = true ∧ s.g_system_state = DOWN →
        (handle_endstop r s).g_opto_position = 0) ∧
      (¬ (confirmed_in_cycle r s = true ∧ s.g_system_state = DOWN) →
        (handle_endstop r s).g_opto_position = s.g_opto_position)) ∧
    (∀ action : String,
      (handle_motor_requests action s).g_opto_position = s.g_opto_position) ∧
    (∀ height : Int,
      (handle_height_requests height s).g_opto_position = s.g_opto_position) ∧
    (handle_output s).g_opto_position = s.g_opto_position ∧
    (∀ now : Nat, (motor_stuck_protection now s).g_opto_position = s.g_opto_position) ∧
    (∀ (r : Int) (now : Nat),
      (track_position r now s).g_opto_position = s.g_opto_position ∨
      (track_position r now s).g_opto_position = wrap_int32 (s.g_opto_position + 1) ∨
      (track_position r now s).g_opto_position = wrap_int32 (s.g_opto_position - 1)) := by
  refine ⟨fun op => Op.apply_not_calibrating op s hs,
    fun inputs => run_loop_not_calibrating inputs s hs,
    fun r => handle_endstop_position r s hs,
    fun action => handle_motor_requests_position action s,
    fun height => handle_height_requests_position height s,
    handle_output_position s,
    fun now => (motor_stuck_protection_frame now s).2.2.2,
    fun r now => ?_⟩
  by_cases h1 : s.g_opto_state = r <;> by_cases h2 : s.g_system_state = UP <;>
    simp [track_position, h1, h2]

/-- C20, at rest after calibration: a pass of `loop` that serves the requests
`/motor/down` and `/height/100` does not end in `CALIBRATING`. -/
theorem calibration_never_reentered_witness :
    (run_loop
      [{ endstop := HIGH, requests := [Request.motor "down", Request.height 100], opto := 1,
         now_track := 10, now_stuck := 10 }]
      Controller.atRest).g_system_state ≠ CALIBRATING :=
  (calibration_never_reentered Controller.atRest (by decide)).2.1 _

/-- C11 (as stated, refuted): from the initial state, with the end-stop `LOW` in every
pass, a first pass at 1 ms records the first sensor reading and a second pass at 600 ms
sees no edge, so the stall guard ends `CALIBRATING` without any confirmation of the
end-stop and with the position at -1; after a further idle pass, a pass at 710 ms serves
`/motor/up` and drives the motor up. -/
theorem calibration_left_by_stall :
    endstop_trace [LOW, LOW, LOW, LOW] (Controller.initial 0) = [false, false, false, false] ∧
    (run_loop
      [{ endstop := LOW, requests := [], opto := 1, now_track := 1, now_stuck := 1 },
       { endstop := LOW, requests := [], opto := 1, now_track := 600, now_stuck := 600 }]
      (Controller.initial 0)).g_system_state = HOLD ∧
    (run_loop
      [{ endstop := LOW, requests := [], opto := 1, now_track := 1, now_stuck := 1 },
       { endstop := LOW, requests := [], opto := 1, now_track := 600, now_stuck := 600 }]
      (Controller.initial 0)).g_opto_position = -1 ∧
    (run_loop
      [{ endstop := LOW, requests := [], opto := 1, now_track := 1, now_stuck := 1 },
       { endstop := LOW, requests := [], opto := 1, now_track := 600, now_stuck := 600 },
       { endstop := LOW, requests := [], opto := 1, now_track := 700, now_stuck := 700 },
       { endstop := LOW, requests := [Request.motor "up"], opto := 1, now_track := 710,
         now_stuck := 710 }]
      (Controller.initial 0)).g_system_state = UP ∧
    (run_loop
      [{ endstop := LOW, requests := [], opto := 1, now_track := 1, now_stuck := 1 },
       { endstop := LOW, requests := [], opto := 1, now_track := 600, now_stuck := 600 },
       { endstop := LOW, requests := [], opto := 1, now_track := 700, now_stuck := 700 },
       { endstop := LOW, requests := [Request.motor "up"], opto := 1, now_track := 710,
         now_stuck := 710 }]
      (Controller.initial 0)).motor_speed = MOTOR_SPEED := by
  refine ⟨by decide, by decide, by decide, by decide, by decide⟩

theorem handle_endstop_calibrating_state (r : Int) (s : Controller)
    (hs : s.g_system_state = CALIBRATING) :
    (confirmed_in_cycle r s = true →
      (handle_endstop r s).g_system_state = HOLD ∧ (handle_endstop r s).g_opto_position = 0) ∧
    (confirmed_in_cycle r s = false →
      (handle_endstop r s).g_system_state = CALIBRATING ∧
      (handle_endstop r s).g_opto_position = s.g_opto_position) := by
  constructor
  · intro hc
    rw [confirmed_in_cycle_iff] at hc
    obtain ⟨hr, hk⟩ := hc
    simp [handle_endstop, count_endstop_reading, endstop_confirmed,
      stop_motor_reset_position, stop_table, hr, hk, hs]
  · intro hc
    rw [← Bool.not_eq_true, confirmed_in_cycle_iff] at hc
    by_cases hr : r = HIGH
    · have hk : ¬ 10 < wrap_int32 (s.g_endstop_value_trig_times + 1) := fun h => hc ⟨hr, h⟩
      simp [handle_endstop, count_endstop_reading, endstop_confirmed, hr, hk, hs]
    · simp [handle_endstop, count_endstop_reading, endstop_confirmed, hr, hs]

/-- C11 (amended): a pass of `loop` that starts in `CALIBRATING` and does not confirm the
end-stop runs only `handle_endstop`, `track_position` and `motor_stuck_protection`: the
requests are not served and `handle_output` is not run, and `handle_endstop` leaves the
position as it was. Such a pass ends outside `CALIBRATING` exactly when the stall guard
fires, and then in state `HOLD`. A pass that
confirms the end-stop has state `HOLD` and position 0 after `handle_endstop`. So the state
leaves `CALIBRATING` only in a pass that confirms the end-stop or in which the stall guard
fires. -/
theorem loop_while_calibrating (i : CycleInput) (s : Controller)
    (hs : s.g_system_state = CALIBRATING) :
    (confirmed_in_cycle i.endstop s = false →
      loop i s = motor_stuck_protection i.now_stuck
        (track_position i.opto i.now_track (handle_endstop i.endstop s)) ∧
      (handle_endstop i.endstop s).g_opto_position = s.g_opto_position ∧
      ((loop i s).g_system_state ≠ CALIBRATING ↔
        opto_sensor_not_changing_when_motor_on i.now_stuck
          (track_position i.opto i.now_track (handle_endstop i.endstop s)) = true) ∧
      ((loop i s).g_system_state = CALIBRATING ∨ (loop i s).g_system_state = HOLD)) ∧
    (confirmed_in_cycle i.endstop s = true →
      (handle_endstop i.endstop s).g_system_state = HOLD ∧
      (handle_endstop i.endstop s).g_opto_position = 0) ∧
    ((loop i s).g_system_state ≠ CALIBRATING →
      confirmed_in_cycle i.endstop s = true ∨
      opto_sensor_not_changing_when_motor_on i.now_stuck
        (track_position i.opto i.now_track (handle_endstop i.endstop s)) = true) := by
  obtain ⟨hconf, hnconf⟩ := handle_endstop_calibrating_state i.endstop s hs
  have key : confirmed_in_cycle i.endstop s = false →
      loop i s = motor_stuck_protection i.now_stuck
        (track_position i.opto i.now_track (handle_endstop i.endstop s)) ∧
      (handle_endstop i.endstop s).g_opto_position = s.g_opto_position ∧
      ((loop i s).g_system_state ≠ CALIBRATING ↔
        opto_sensor_not_changing_when_motor_on i.now_stuck
          (track_position i.opto i.now_track (handle_endstop i.endstop s)) = true) ∧
      ((loop i s).g_system_state = CALIBRATING ∨ (loop i s).g_system_state = HOLD) := by
    intro hc
    obtain ⟨h1, hpos⟩ := hnconf hc
    have hloop : loop i s = motor_stuck_protection i.now_stuck
        (track_position i.opto i.now_track (handle_endstop i.endstop s)) := by
      simp [loop, h1]
    have ht : (track_position i.opto i.now_track (handle_endstop i.endstop s)).g_system_state
        = CALIBRATING := by
      rw [track_position_state]; exact h1
    refine ⟨hloop, hpos, ?_, ?_⟩
    · rw [hloop]
      cases hf : opto_sensor_not_changing_when_motor_on i.now_stuck
          (track_position i.opto i.now_track (handle_endstop i.endstop s)) <;>
        simp [motor_stuck_protection, ht, hf]
    · rw [hloop]
      rcases (motor_stuck_protection_frame i.now_stuck
        (track_position i.opto i.now_track (handle_endstop i.endstop s))).1 with h2 | h2
      · left; rw [h2]; exact ht
      · right; exact h2
  refine ⟨key, hconf, fun hleft => ?_⟩
  cases hc : confirmed_in_cycle i.endstop s
  · right
    exact (key hc).2.2.1.mp hleft
  · left; rfl

/-- C11 (amended), for the first pass after startup with the end-stop `LOW` and a request
for `/motor/up` waiting: the request is not served and the state stays `CALIBRATING`. -/
theorem loop_while_calibrating_witness :
    loop { endstop := LOW, requests := [Request.motor "up"], opto := 1, now_track := 1,
           now_stuck := 1 } (Controller.initial 0) =
      motor_stuck_protection 1 (track_position 1 1 (handle_endstop LOW (Controller.initial 0))) :=
  ((loop_while_calibrating
    { endstop := LOW, requests := [Request.motor "up"], opto := 1, now_track := 1,
      now_stuck := 1 } (Controller.initial 0) (by decide)).1 (by decide)).1

/-! ## Target range -/

/-- An `int` that passes the unsigned range test of `handle_height_requests` lies between
70 and 120. -/
theorem toUnsigned_in_range (h : Int) (hh : is_int32 h)
    (hc : toUnsigned h ≥ MIN_HEIGHT ∧ toUnsigned h ≤ MAX_HEIGHT) : 70 ≤ h ∧ h ≤ 120 := by
  obtain ⟨h1, h2⟩ := hh
  obtain ⟨c1, c2⟩ := hc
  have c1' : (70 : Int) ≤ (toUnsigned h : Int) := by
    have : (MIN_HEIGHT : Int) ≤ (toUnsigned h : Int) := by exact_mod_cast c1
    simpa [MIN_HEIGHT] using this
  have c2' : (toUnsigned h : Int) ≤ 120 := by
    have : (toUnsigned h : Int) ≤ (MAX_HEIGHT : Int) := by exact_mod_cast c2
    simpa [MAX_HEIGHT] using this
  by_cases hneg : h < 0
  · rw [toUnsigned_of_neg h1 hneg] at c2'
    omega
  · rw [toUnsigned_of_nonneg (not_lt.mp hneg) (by omega)] at c1' c2'
    exact ⟨c1', c2'⟩

theorem handle_output_target (s : Controller) :
    (handle_output s).g_custom_height = s.g_custom_height ∨
      (handle_output s).g_custom_height = -1 := by
  cases hr : custom_height_reached s
  · rw [handle_output_of_not_reached s hr]
    cases hs : s.g_system_state
    · left; rfl
    · show (raise_table s).g_custom_height = _ ∨ (raise_table s).g_custom_height = _
      unfold raise_table
      split_ifs
      · left; rfl
      · right; rfl
    · show (lower_table s).g_custom_height = _ ∨ (lower_table s).g_custom_height = _
      unfold lower_table
      split_ifs
      · left; rfl
      · right; rfl
    · right; rfl
  · rw [handle_output_of_reached s hr]
    right; rfl

theorem handle_endstop_target (r : Int) (s : Controller) :
    (handle_endstop r s).g_custom_height = s.g_custom_height ∨
      (handle_endstop r s).g_custom_height = -1 := by
  by_cases hr : r = HIGH <;> by_cases hk : 10 < wrap_int32 (s.g_endstop_value_trig_times + 1) <;>
    cases hs : s.g_system_state <;>
    simp [handle_endstop, count_endstop_reading, endstop_confirmed,
      stop_motor_reset_position, stop_table, hr, hk, hs]

theorem handle_height_requests_target (hh : Int) (s : Controller) (ht : is_int32 hh) :
    (handle_height_requests hh s).g_custom_height = s.g_custom_height ∨
      (70 ≤ (handle_height_requests hh s).g_custom_height ∧
        (handle_height_requests hh s).g_custom_height ≤ 120) := by
  by_cases hc : toUnsigned hh ≥ MIN_HEIGHT ∧ toUnsigned hh ≤ MAX_HEIGHT
  · have hr := toUnsigned_in_range hh ht hc
    by_cases h1 : get_current_height s < hh
    · right; simpa [handle_height_requests, hc, h1] using hr
    · by_cases h2 : get_current_height s > hh
      · right; simpa [handle_height_requests, hc, h1, h2] using hr
      · left; simp [handle_height_requests, hc, h1, h2]
  · left; simp [handle_height_requests, hc]

theorem target_range_step {c d : Int} (h : c = -1 ∨ (70 ≤ c ∧ c ≤ 120))
    (e : d = c ∨ d = -1 ∨ (70 ≤ d ∧ d ≤ 120)) : d = -1 ∨ (70 ≤ d ∧ d ≤ 120) := by
  rcases e with e | e | e
  · rw [e]; exact h
  · left; exact e
  · right; exact e

theorem Op.apply_target_range (op : Op) (s : Controller) (ht : op.typed)
    (h : s.g_custom_height = -1 ∨ (70 ≤ s.g_custom_height ∧ s.g_custom_height ≤ 120)) :
    (op.apply s).g_custom_height = -1 ∨
      (70 ≤ (op.apply s).g_custom_height ∧ (op.apply s).g_custom_height ≤ 120) := by
  cases op with
  | motor_request action => left; rfl
  | height_request hh =>
    rcases handle_height_requests_target hh s ht with e | e
    · exact target_range_step h (Or.inl e)
    · exact Or.inr e
  | output =>
    rcases handle_output_target s with e | e
    · exact target_range_step h (Or.inl e)
    · exact Or.inl e
  | endstop r =>
    rcases handle_endstop_target r s with e | e
    · exact target_range_step h (Or.inl e)
    · exact Or.inl e
  | track r now => exact target_range_step h (Or.inl (track_position_frame r now s).2.1)
  | stuck now => exact target_range_step h (Or.inl (motor_stuck_protection_frame now s).2.1)

theorem run_ops_target_range (ops : List Op) :
    ∀ s : Controller, (∀ op ∈ ops, op.typed) →
      (s.g_custom_height = -1 ∨ (70 ≤ s.g_custom_height ∧ s.g_custom_height ≤ 120)) →
      ((run_ops ops s).g_custom_height = -1 ∨
        (70 ≤ (run_ops ops s).g_custom_height ∧ (run_ops ops s).g_custom_height ≤ 120)) := by
  induction ops with
  | nil => intro s _ h; exact h
  | cons op ops ih =>
    intro s ht h
    have hstep : run_ops (op :: ops) s = run_ops ops (op.apply s) := rfl
    rw [hstep]
    exact ih _ (fun o ho => ht o (List.mem_cons_of_mem _ ho))
      (Op.apply_target_range op s (ht op (List.mem_cons_self _ _)) h)

/-- C15: starting with the target unset, after any sequence of calls of
`handle_motor_requests`, `handle_height_requests` (with any `int` argument),
`handle_output`, `handle_endstop`, `track_position` and `motor_stuck_protection`, the
target is either unset (-1) or between 70 and 120. -/
theorem target_height_in_range (s : Controller) (ops : List Op)
    (h0 : s.g_custom_height = -1) (ht : ∀ op ∈ ops, op.typed) :
    (run_ops ops s).g_custom_height = -1 ∨
      (70 ≤ (run_ops ops s).g_custom_height ∧ (run_ops ops s).g_custom_height ≤ 120) :=
  run_ops_target_range ops s ht (Or.inl h0)

/-- C15, at rest: after requests for the heights 4000, -3 and 100 and a call of
`handle_output`, the target is unset or between 70 and 120. -/
theorem target_height_in_range_witness :
    (run_ops [Op.height_request 4000, Op.height_request (-3), Op.height_request 100, Op.output]
        Controller.atRest).g_custom_height = -1 ∨
      (70 ≤ (run_ops [Op.height_request 4000, Op.height_request (-3), Op.height_request 100,
          Op.output] Controller.atRest).g_custom_height ∧
        (run_ops [Op.height_request 4000, Op.height_request (-3), Op.height_request 100,
          Op.output] Controller.atRest).g_custom_height ≤ 120) :=
  target_height_in_range Controller.atRest _ (by decide)
    (by
      intro op hop
      simp only [List.mem_cons, List.mem_singleton, List.not_mem_nil, or_false] at hop
      rcases hop with h | h | h | h <;> subst h <;> simp [Op.typed, is_int32])

/-! ## One edge, one centimetre at most -/

/-- For a position within 53 bits the two conversions at the head of
`get_current_height` are exact. -/
theorem heightQ_exact (p : ℤ) (hp : |p| < 2 ^ 53) :
    heightQ p = flQ 53 (flQ 53 ((p : ℚ) / 4 / (9118052 / 4194304)) + 70) := by
  have e1 : flQ 53 (p : ℚ) = p := flQ_intCast 53 p hp
  have e2 : flQ 53 ((p : ℚ) / 4) = (p : ℚ) / 4 := by
    have := flQ_fixed 53 p (-2) hp
    have e : (p : ℚ) * 2 ^ (-2 : ℤ) = (p : ℚ) / 4 := by
      rw [zpow_neg]; norm_num; ring
    rwa [e] at this
  unfold heightQ
  rw [e1, e2]

/-- A quotient at or above `K - 70 + j / 1024` gives a sum at or above `K + j / 1024`. -/
theorem heightQ_ge_of_quotient_ge (p K j : ℤ) (hp : |p| < 2 ^ 53) (hK : |K| ≤ 2 ^ 40)
    (hj : 0 ≤ j ∧ j ≤ 1024)
    (h : ((1024 * (K - 70) + j : ℤ) : ℚ) * 2 ^ (-10 : ℤ) ≤ (p : ℚ) / 4 / (9118052 / 4194304)) :
    ((1024 * K + j : ℤ) : ℚ) * 2 ^ (-10 : ℤ) ≤ heightQ p := by
  have hK' := abs_le.mp hK
  have f1 := flQ_fixed 53 (1024 * (K - 70) + j) (-10) (by rw [abs_lt]; constructor <;> omega)
  have f2 := flQ_fixed 53 (1024 * K + j) (-10) (by rw [abs_lt]; constructor <;> omega)
  have y1 := flQ_mono 53 (by norm_num) h
  rw [f1] at y1
  have hpow : (2 : ℚ) ^ (-10 : ℤ) = 1 / 1024 := by rw [zpow_neg]; norm_num
  have z1 : ((1024 * K + j : ℤ) : ℚ) * 2 ^ (-10 : ℤ) ≤
      flQ 53 ((p : ℚ) / 4 / (9118052 / 4194304)) + 70 := by
    rw [hpow] at y1 ⊢
    push_cast at y1 ⊢
    linarith
  have w1 := flQ_mono 53 (by norm_num) z1
  rw [f2] at w1
  rw [heightQ_exact p hp]
  exact w1

/-- A quotient at or below `K - 70 - j / 1024` gives a sum at or below `K - j / 1024`. -/
theorem heightQ_le_of_quotient_le (p K j : ℤ) (hp : |p| < 2 ^ 53) (hK : |K| ≤ 2 ^ 40)
    (hj : 0 ≤ j ∧ j ≤ 1024)
    (h : (p : ℚ) / 4 / (9118052 / 4194304) ≤ ((1024 * (K - 70) - j : ℤ) : ℚ) * 2 ^ (-10 : ℤ)) :
    heightQ p ≤ ((1024 * K - j : ℤ) : ℚ) * 2 ^ (-10 : ℤ) := by
  have hK' := abs_le.mp hK
  have f1 := flQ_fixed 53 (1024 * (K - 70) - j) (-10) (by rw [abs_lt]; constructor <;> omega)
  have f2 := flQ_fixed 53 (1024 * K - j) (-10) (by rw [abs_lt]; constructor <;> omega)
  have y1 := flQ_mono 53 (by norm_num) h
  rw [f1] at y1
  have hpow : (2 : ℚ) ^ (-10 : ℤ) = 1 / 1024 := by rw [zpow_neg]; norm_num
  have z1 : flQ 53 ((p : ℚ) / 4 / (9118052 / 4194304)) + 70 ≤
      ((1024 * K - j : ℤ) : ℚ) * 2 ^ (-10 : ℤ) := by
    rw [hpow] at y1 ⊢
    push_cast at y1 ⊢
    linarith
  have w1 := flQ_mono 53 (by norm_num) z1
  rw [f2] at w1
  rw [heightQ_exact p hp]
  exact w1

theorem quotient_succ (p : ℤ) :
    ((p + 1 : ℤ) : ℚ) / 4 / (9118052 / 4194304) =
      (p : ℚ) / 4 / (9118052 / 4194304) + 262144 / 2279513 := by
  push_cast
  field_simp
  ring

theorem truncQ_le_of_le {y : ℚ} {M : ℤ} (h : y ≤ (M : ℚ)) : truncQ y ≤ M := by
  unfold truncQ
  split_ifs with h0
  · have := Int.floor_le y
    have h2 : ((⌊y⌋ : ℤ) : ℚ) ≤ (M : ℚ) := le_trans this h
    exact_mod_cast h2
  · exact Int.ceil_le.mpr h

/-- One more edge raises the height by at most 1, for a position of type `int`. -/
theorem height_of_position_succ_le (p : ℤ) (hp : is_int32 p) :
    height_of_position (p + 1) ≤ height_of_position p + 1 := by
  obtain ⟨b1, b2⟩ := height_of_position_int32 p hp
  obtain ⟨p1, p2⟩ := hp
  have hp53 : |p| < 2 ^ 53 := by rw [abs_lt]; constructor <;> omega
  have hq53 : |p + 1| < 2 ^ 53 := by rw [abs_lt]; constructor <;> omega
  have hpow : (2 : ℚ) ^ (-10 : ℤ) = 1 / 1024 := by rw [zpow_neg]; norm_num
  rw [height_of_position_eq] at b1 b2
  rw [height_of_position_eq p, height_of_position_eq (p + 1)]
  set k := truncQ (heightQ p) with hk
  by_cases h0 : 0 ≤ heightQ p
  · -- the sum is below `k + 1`, so the quotient is below `k + 1 - 70`
    have hlt : heightQ p < ((k + 1 : ℤ) : ℚ) := by
      have : k = ⌊heightQ p⌋ := by rw [hk]; unfold truncQ; rw [if_pos h0]
      rw [this]; push_cast; exact Int.lt_floor_add_one _
    have hx : (p : ℚ) / 4 / (9118052 / 4194304) < (((k + 1) - 70 : ℤ) : ℚ) := by
      by_contra hc
      have hc' := not_lt.mp hc
      have := heightQ_ge_of_quotient_ge p (k + 1) 0 hp53 (by rw [abs_le]; constructor <;> omega)
        (by omega) (by rw [hpow]; push_cast at hc' ⊢; linarith)
      rw [hpow] at this
      push_cast at this hlt
      linarith
    have hnext := heightQ_le_of_quotient_le (p + 1) (k + 2) 1 hq53
      (by rw [abs_le]; constructor <;> omega) (by omega)
      (by rw [quotient_succ, hpow]; push_cast at hx ⊢; linarith)
    have h0' : 0 ≤ heightQ (p + 1) := le_trans h0 (heightQ_mono (by omega))
    unfold truncQ
    rw [if_pos h0']
    have : ⌊heightQ (p + 1)⌋ < k + 2 := by
      rw [Int.floor_lt]
      rw [hpow] at hnext
      push_cast at hnext ⊢
      linarith
    omega
  · -- the sum is at most `k`, so the quotient is below `k - 70 + 1 / 1024`
    have hle : heightQ p ≤ (k : ℚ) := by
      have : k = ⌈heightQ p⌉ := by rw [hk]; unfold truncQ; rw [if_neg h0]
      rw [this]; exact Int.le_ceil _
    have hx : (p : ℚ) / 4 / (9118052 / 4194304) <
        ((1024 * (k - 70) + 1 : ℤ) : ℚ) * 2 ^ (-10 : ℤ) := by
      by_contra hc
      have hc' := not_lt.mp hc
      have := heightQ_ge_of_quotient_ge p k 1 hp53 (by rw [abs_le]; constructor <;> omega)
        (by omega) hc'
      rw [hpow] at this
      push_cast at this
      linarith
    have hnext := heightQ_le_of_quotient_le (p + 1) (k + 1) 0 hq53
      (by rw [abs_le]; constructor <;> omega) (by omega)
      (by rw [quotient_succ]; rw [hpow] at hx ⊢; push_cast at hx ⊢; linarith)
    apply truncQ_le_of_le
    rw [hpow] at hnext
    push_cast at hnext ⊢
    linarith

theorem height_of_position_between (n : ℕ) :
    ∀ p v : ℤ, is_int32 p → is_int32 (p + n) →
      height_of_position p ≤ v → v ≤ height_of_position (p + n) →
      ∃ r : ℤ, p ≤ r ∧ r ≤ p + n ∧ height_of_position r = v := by
  induction n with
  | zero =>
    intro p v _ _ h1 h2
    refine ⟨p, le_refl p, by simp, ?_⟩
    simp only [Nat.cast_zero, add_zero] at h2
    omega
  | succ n ih =>
    intro p v hp hq h1 h2
    have hmid : is_int32 (p + n) := by
      obtain ⟨a1, a2⟩ := hp
      obtain ⟨c1, c2⟩ := hq
      push_cast at c1 c2
      constructor <;> omega
    by_cases hv : v ≤ height_of_position (p + n)
    · obtain ⟨r, r1, r2, r3⟩ := ih p v hp hmid h1 hv
      exact ⟨r, r1, by push_cast; omega, r3⟩
    · have hstep := height_of_position_succ_le (p + n) hmid
      have e : p + ((n + 1 : ℕ) : ℤ) = p + n + 1 := by push_cast; ring
      rw [e] at h2
      refine ⟨p + n + 1, by omega, by push_cast; omega, ?_⟩
      omega

/-- C19: for a position `p` of type `int`, one more edge raises the height by 0 or 1:
`0 ≤ height(p + 1) - height(p) ≤ 1`. Hence between two positions the height takes every
integer value between the two heights. -/
theorem get_current_height_step (s t : Controller) (hs : is_int32 s.g_opto_position) :
    (t.g_opto_position = s.g_opto_position + 1 →
      0 ≤ get_current_height t - get_current_height s ∧
      get_current_height t - get_current_height s ≤ 1) ∧
    (is_int32 t.g_opto_position → s.g_opto_position ≤ t.g_opto_position →
      ∀ v : Int, get_current_height s ≤ v → v ≤ get_current_height t →
        ∃ r : Int, s.g_opto_position ≤ r ∧ r ≤ t.g_opto_position ∧
          get_current_height { s with g_opto_position := r } = v) := by
  constructor
  · intro ht
    unfold get_current_height
    rw [ht]
    have h1 := height_of_position_succ_le s.g_opto_position hs
    have h2 : height_of_position s.g_opto_position ≤
        height_of_position (s.g_opto_position + 1) := height_of_position_mono (by omega)
    omega
  · intro ht hle v h1 h2
    obtain ⟨n, hn⟩ := Int.eq_ofNat_of_zero_le (sub_nonneg.mpr hle)
    have e : t.g_opto_position = s.g_opto_position + (n : ℤ) := by omega
    unfold get_current_height at h1 h2
    rw [e] at h2 ht
    obtain ⟨r, r1, r2, r3⟩ := height_of_position_between n s.g_opto_position v hs ht h1 h2
    exact ⟨r, r1, by omega, r3⟩

/-- C19, between the positions 173 and 174, where the height goes from 89 to 90. -/
theorem get_current_height_step_witness :
    0 ≤ get_current_height { Controller.atRest with g_opto_position := 174 } -
        get_current_height { Controller.atRest with g_opto_position := 173 } ∧
    get_current_height { Controller.atRest with g_opto_position := 174 } -
        get_current_height { Controller.atRest with g_opto_position := 173 } ≤ 1 :=
  (get_current_height_step { Controller.atRest with g_opto_position := 173 }
    { Controller.atRest with g_opto_position := 174 }
    (by simp [is_int32, Controller.atRest, Controller.initial])).1 (by decide)

/-! ## Going to a height -/

theorem track_position_up (r : Int) (now : Nat) (s : Controller)
    (hs : s.g_system_state = UP) (hq : is_int32 (s.g_opto_position + 1)) :
    (track_position r now s).g_opto_position = s.g_opto_position ∨
      (track_position r now s).g_opto_position = s.g_opto_position + 1 := by
  by_cases h1 : s.g_opto_state = r
  · left; simp [track_position, h1]
  · right; rw [track_position_edge_up r now s h1 hs, wrap_int32_of_int32 hq]

/-- The states of a run towards the target `h`: on the way up with the target `h` and
the height at most `h`, or on hold. -/
theorem output_then_track_towards (h : Int) (hmin : 70 ≤ h) (hmax : h ≤ 120)
    (r : Int × Nat) (t : Controller)
    (inv : (t.g_system_state = UP ∧ t.g_custom_height = h ∧ get_current_height t ≤ h ∧
        is_int32 t.g_opto_position) ∨ t.g_system_state = HOLD) :
    ((output_then_track r t).g_system_state = UP ∧
        (output_then_track r t).g_custom_height = h ∧
        get_current_height (output_then_track r t) ≤ h ∧
        is_int32 (output_then_track r t).g_opto_position) ∨
      (output_then_track r t).g_system_state = HOLD := by
  unfold output_then_track
  rcases inv with ⟨hs, hc, hle, hp⟩ | hs
  · by_cases heq : get_current_height t = h
    · right
      have hr : custom_height_reached t = true :=
        (custom_height_reached_iff t).mpr ⟨by rw [hc]; omega, by rw [hc, heq]⟩
      rw [track_position_state, handle_output_of_reached t hr]
    · have hlt : get_current_height t < h := lt_of_le_of_ne hle heq
      have hr : custom_height_reached t = false := by
        rw [← Bool.not_eq_true, custom_height_reached_iff]
        rintro ⟨_, h2⟩
        exact heq (by rw [← h2, hc])
      have hout : handle_output t = raise_table t := by
        rw [handle_output_of_not_reached t hr, hs]
      rw [hout]
      obtain ⟨b1, b2⟩ := height_of_position_int32 t.g_opto_position hp
      have hint : is_int32 (get_current_height t) := by
        unfold get_current_height
        constructor <;> omega
      by_cases htest : toUnsigned (get_current_height t) < MAX_HEIGHT
      · left
        have hraise : raise_table t = { t with motor_speed := MOTOR_SPEED } := by
          simp [raise_table, htest]
        rw [hraise]
        obtain ⟨n0, n1⟩ := (toUnsigned_lt_max_iff _ hint).mp htest
        have hpos : t.g_opto_position ≤ 435 := by
          by_contra hc'
          have h436 : height_of_position 436 = 120 := by decide
          have := height_of_position_mono (show (436 : ℤ) ≤ t.g_opto_position by omega)
          unfold get_current_height at n1
          omega
        obtain ⟨f1, f2, _⟩ := track_position_frame r.1 r.2 { t with motor_speed := MOTOR_SPEED }
        have hq : is_int32 (t.g_opto_position + 1) := by
          obtain ⟨p1, p2⟩ := hp
          constructor <;> omega
        refine ⟨by rw [f1]; exact hs, by rw [f2]; exact hc, ?_, ?_⟩
        · rcases track_position_up r.1 r.2 { t with motor_speed := MOTOR_SPEED } hs hq
            with e | e
          · unfold get_current_height at hle ⊢
            rw [e]; exact hle
          · unfold get_current_height at hlt ⊢
            rw [e]
            have := height_of_position_succ_le t.g_opto_position hp
            show height_of_position (t.g_opto_position + 1) ≤ h
            omega
        · rcases track_position_up r.1 r.2 { t with motor_speed := MOTOR_SPEED } hs hq
            with e | e
          · rw [e]; exact hp
          · rw [e]; exact hq
      · right
        have hraise : raise_table t = stop_table t := by
          simp [raise_table, htest]
        rw [hraise, track_position_state]
        rfl
  · right
    rw [track_position_state]
    cases hr : custom_height_reached t
    · rw [handle_output_of_not_reached t hr, hs]
      rfl
    · rw [handle_output_of_reached t hr]

theorem run_output_track_towards (h : Int) (hmin : 70 ≤ h) (hmax : h ≤ 120)
    (rs : List (Int × Nat)) :
    ∀ t : Controller,
      ((t.g_system_state = UP ∧ t.g_custom_height = h ∧ get_current_height t ≤ h ∧
          is_int32 t.g_opto_position) ∨ t.g_system_state = HOLD) →
      (((run_output_track rs t).g_system_state = UP ∧
          (run_output_track rs t).g_custom_height = h ∧
          get_current_height (run_output_track rs t) ≤ h ∧
          is_int32 (run_output_track rs t).g_opto_position) ∨
        (run_output_track rs t).g_system_state = HOLD) := by
  induction rs with
  | nil => intro t inv; exact inv
  | cons r rs ih =>
    intro t inv
    have hstep : run_output_track (r :: rs) t = run_output_track rs (output_then_track r t) := rfl
    rw [hstep]
    exact ih _ (output_then_track_towards h hmin hmax r t inv)

theorem output_then_track_edge (h : Int) (hmax : h ≤ 120) (r : Int × Nat) (t : Controller)
    (hs : t.g_system_state = UP) (hc : t.g_custom_height = h)
    (h0 : 0 ≤ get_current_height t) (hlt : get_current_height t < h)
    (hp : is_int32 t.g_opto_position) (he : t.g_opto_state ≠ r.1) :
    (output_then_track r t).g_system_state = UP ∧
    (output_then_track r t).g_custom_height = h ∧
    (output_then_track r t).g_opto_position = t.g_opto_position + 1 ∧
    (output_then_track r t).g_opto_state = r.1 := by
  have hr : custom_height_reached t = false := by
    rw [← Bool.not_eq_true, custom_height_reached_iff]
    rintro ⟨_, h2⟩
    rw [hc] at h2
    omega
  obtain ⟨b1, b2⟩ := height_of_position_int32 t.g_opto_position hp
  have hint : is_int32 (get_current_height t) := by
    unfold get_current_height
    constructor <;> omega
  have htest : toUnsigned (get_current_height t) < MAX_HEIGHT :=
    (toUnsigned_lt_max_iff _ hint).mpr ⟨h0, by omega⟩
  have hout : handle_output t = { t with motor_speed := MOTOR_SPEED } := by
    rw [handle_output_of_not_reached t hr]
    simp [raise_table, htest, hs]
  have hpos : t.g_opto_position ≤ 435 := by
    by_contra hc'
    have h436 : height_of_position 436 = 120 := by decide
    have := height_of_position_mono (show (436 : ℤ) ≤ t.g_opto_position by omega)
    unfold get_current_height at hlt
    omega
  have hq : is_int32 (t.g_opto_position + 1) := by
    obtain ⟨p1, p2⟩ := hp
    constructor <;> omega
  unfold output_then_track
  rw [hout, track_position_edge_up r.1 r.2 { t with motor_speed := MOTOR_SPEED } he hs]
  refine ⟨hs, hc, ?_, rfl⟩
  show wrap_int32 (t.g_opto_position + 1) = t.g_opto_position + 1
  exact wrap_int32_of_int32 hq

theorem run_output_track_edges (h : Int) (hmax : h ≤ 120) (rs : List (Int × Nat)) :
    ∀ t : Controller, t.g_system_state = UP → t.g_custom_height = h →
      0 ≤ get_current_height t → is_int32 t.g_opto_position →
      is_int32 (t.g_opto_position + rs.length) →
      all_edges t.g_opto_state rs = true →
      (rs ≠ [] → height_of_position (t.g_opto_position + rs.length - 1) < h) →
      (run_output_track rs t).g_system_state = UP ∧
      (run_output_track rs t).g_custom_height = h ∧
      (run_output_track rs t).g_opto_position = t.g_opto_position + rs.length := by
  induction rs with
  | nil => intro t hs hc _ _ _ _ _; exact ⟨hs, hc, by simp [run_output_track]⟩
  | cons r rs ih =>
    intro t hs hc h0 hp hq he hlast
    simp only [all_edges, Bool.and_eq_true, decide_eq_true_eq] at he
    obtain ⟨hne, hrest⟩ := he
    have hlen : ((r :: rs).length : ℤ) = (rs.length : ℤ) + 1 := by simp
    rw [hlen] at hq
    have hl := hlast (List.cons_ne_nil r rs)
    rw [hlen] at hl
    have hlt : get_current_height t < h := by
      have := height_of_position_mono
        (show t.g_opto_position ≤ t.g_opto_position + ((rs.length : ℤ) + 1) - 1 by omega)
      unfold get_current_height
      omega
    obtain ⟨e1, e2, e3, e4⟩ := output_then_track_edge h hmax r t hs hc h0 hlt hp hne
    have hstep : run_output_track (r :: rs) t = run_output_track rs (output_then_track r t) := rfl
    have h0' : 0 ≤ get_current_height (output_then_track r t) := by
      have := height_of_position_mono
        (show t.g_opto_position ≤ t.g_opto_position + 1 by omega)
      unfold get_current_height at h0 ⊢
      rw [e3]
      omega
    have hp' : is_int32 (output_then_track r t).g_opto_position := by
      rw [e3]
      obtain ⟨p1, p2⟩ := hp
      obtain ⟨q1, q2⟩ := hq
      constructor <;> omega
    have hq' : is_int32 ((output_then_track r t).g_opto_position + rs.length) := by
      rw [e3]
      obtain ⟨q1, q2⟩ := hq
      constructor <;> omega
    obtain ⟨i1, i2, i3⟩ := ih (output_then_track r t) e1 e2 h0' hp' hq'
      (by rw [e4]; exact hrest)
      (fun _ => by
        rw [e3]
        have e : t.g_opto_position + 1 + (rs.length : ℤ) - 1 =
            t.g_opto_position + ((rs.length : ℤ) + 1) - 1 := by ring
        rw [e]; exact hl)
    rw [hstep]
    refine ⟨i1, i2, ?_⟩
    rw [i3, e3, hlen]
    ring

/-- C18: for a target `h` between 70 and 120 above the current height, at a position of
type `int`, `handle_height_requests` sets the state to `UP` and the target to `h`. In
every run of cycles of `handle_output` followed by `track_position` from there, the state
is `UP` or `HOLD`; while it is `UP` the target is still `h` and the height is at most `h`;
and when `handle_output` is called in state `UP` at height `h`, it sets the state to
`HOLD`, clears the target and stops the motor. If moreover every cycle of the run sees an
edge, the height is not negative at the start, and the run is as long as it takes to bring
the height to `h` for the first time, then the run ends in state `UP` at height `h` and
the next call of `handle_output` puts the table on hold with the target cleared and the
motor stopped. -/
theorem goto_height_no_overshoot (s : Controller) (h : Int) (hmin : 70 ≤ h) (hmax : h ≤ 120)
    (hp : is_int32 s.g_opto_position) (hcur : get_current_height s < h) :
    handle_height_requests h s = { s with g_custom_height := h, g_system_state := UP } ∧
    (∀ rs : List (Int × Nat),
      (run_output_track rs (handle_height_requests h s)).g_system_state = UP ∨
      (run_output_track rs (handle_height_requests h s)).g_system_state = HOLD) ∧
    (∀ rs : List (Int × Nat),
      (run_output_track rs (handle_height_requests h s)).g_system_state = UP →
        (run_output_track rs (handle_height_requests h s)).g_custom_height = h ∧
        get_current_height (run_output_track rs (handle_height_requests h s)) ≤ h) ∧
    (∀ rs : List (Int × Nat),
      (run_output_track rs (handle_height_requests h s)).g_system_state = UP →
      get_current_height (run_output_track rs (handle_height_requests h s)) = h →
        handle_output (run_output_track rs (handle_height_requests h s)) =
          { run_output_track rs (handle_height_requests h s) with
            motor_speed := 0, g_custom_height := -1, g_system_state := HOLD }) ∧
    (∀ rs : List (Int × Nat),
      all_edges s.g_opto_state rs = true → 0 ≤ get_current_height s →
      get_current_height { s with g_opto_position := s.g_opto_position + rs.length - 1 } < h →
      get_current_height { s with g_opto_position := s.g_opto_position + rs.length } = h →
        (run_output_track rs (handle_height_requests h s)).g_system_state = UP ∧
        (run_output_track rs (handle_height_requests h s)).g_opto_position =
          s.g_opto_position + rs.length ∧
        handle_output (run_output_track rs (handle_height_requests h s)) =
          { run_output_track rs (handle_height_requests h s) with
            motor_speed := 0, g_custom_height := -1, g_system_state := HOLD }) := by
  have hreq : handle_height_requests h s =
      { s with g_custom_height := h, g_system_state := UP } := by
    have hu : (toUnsigned h : Int) = h := toUnsigned_of_nonneg (by omega) (by omega)
    have hc : toUnsigned h ≥ MIN_HEIGHT ∧ toUnsigned h ≤ MAX_HEIGHT := by
      constructor
      · have : (MIN_HEIGHT : Int) ≤ (toUnsigned h : Int) := by
          rw [hu]; simpa [MIN_HEIGHT] using hmin
        exact_mod_cast this
      · have : (toUnsigned h : Int) ≤ (MAX_HEIGHT : Int) := by
          rw [hu]; simpa [MAX_HEIGHT] using hmax
        exact_mod_cast this
    simp only [handle_height_requests, hc, and_self, if_true, hcur]
  have inv0 : ((handle_height_requests h s).g_system_state = UP ∧
      (handle_height_requests h s).g_custom_height = h ∧
      get_current_height (handle_height_requests h s) ≤ h ∧
      is_int32 (handle_height_requests h s).g_opto_position) ∨
      (handle_height_requests h s).g_system_state = HOLD := by
    left
    rw [hreq]
    exact ⟨rfl, rfl, le_of_lt hcur, hp⟩
  have inv := fun rs => run_output_track_towards h hmin hmax rs _ inv0
  have hstop : ∀ rs : List (Int × Nat),
      (run_output_track rs (handle_height_requests h s)).g_system_state = UP →
      get_current_height (run_output_track rs (handle_height_requests h s)) = h →
        handle_output (run_output_track rs (handle_height_requests h s)) =
          { run_output_track rs (handle_height_requests h s) with
            motor_speed := 0, g_custom_height := -1, g_system_state := HOLD } := by
    intro rs hup heq
    rcases inv rs with ⟨_, i2, _, _⟩ | i
    · apply handle_output_of_reached
      rw [custom_height_reached_iff, i2, heq]
      exact ⟨by omega, rfl⟩
    · rw [i] at hup; exact absurd hup (by decide)
  refine ⟨hreq, fun rs => ?_, fun rs hup => ?_, hstop, fun rs he h0 hlast hend => ?_⟩
  · rcases inv rs with ⟨i1, _⟩ | i
    · left; exact i1
    · right; exact i
  · rcases inv rs with ⟨_, i2, i3, _⟩ | i
    · exact ⟨i2, i3⟩
    · rw [i] at hup; exact absurd hup (by decide)
  · have hq : is_int32 (s.g_opto_position + rs.length) := by
      obtain ⟨p1, p2⟩ := hp
      constructor
      · omega
      · by_contra hc
        have h444 : height_of_position 444 = 121 := by decide
        have := height_of_position_mono
          (show (444 : ℤ) ≤ s.g_opto_position + rs.length by omega)
        have hend' : height_of_position (s.g_opto_position + rs.length) = h := hend
        omega
    obtain ⟨r1, r2, r3⟩ := run_output_track_edges h hmax rs
      { s with g_custom_height := h, g_system_state := UP } rfl rfl h0 hp hq he
      (fun _ => hlast)
    rw [hreq] at hstop ⊢
    refine ⟨r1, r3, hstop rs r1 ?_⟩
    unfold get_current_height
    rw [r3]
    exact hend

/-- C18, at rest at position 0 (height 70) with a request for 90: after 174 cycles with an
edge each, the next call of `handle_output` puts the table on hold. -/
theorem goto_height_no_overshoot_witness :
    (handle_output (run_output_track (alternating_edges 174)
      (handle_height_requests 90 Controller.atRest))).g_system_state = HOLD :=
  congrArg Controller.g_system_state
    ((goto_height_no_overshoot Controller.atRest 90 (by decide) (by decide)
      (by simp [is_int32, Controller.atRest, Controller.initial]) (by decide)).2.2.2.2
      (alternating_edges 174) (by decide) (by decide) (by decide) (by decide)).2.2
